import Mathlib

/-!
Shallow embedding of `testqrcode.c` from michaelrsweet/QRCode: the PNG
export path (scanline bit packing, streaming deflate feeding, chunk/CRC
framing into a bounded output buffer) and the SVG export path.

Machine integers: the C code uses `unsigned` (32-bit) values whose
arithmetic never overflows in the modelled ranges (QR sizes are at most
177 modules), so they are modelled as `Nat`; bytes written into buffers
are reduced `% 256` exactly where the C `& 0xff` masks appear.
-/

/-- Image export constant `QR_SCALE`: nominal pixel size of modules. -/
def QR_SCALE : Nat := 5

/-- Image export constant `QR_PADDING`: white padding modules around the QR code. -/
def QR_PADDING : Nat := 4

/-- Capacity of the PNG output buffer `pngbuf[65536]`. -/
def PNGBUF_SIZE : Nat := 65536

/-- Modelled from the spec: one shift step of the standard CRC32 with
reflected polynomial 0xEDB88320 (the `crc32` routine lives in zlib, an
external dependency; the spec fixes the algorithm: polynomial 0xEDB88320,
initial value 0, with the standard complement steps). -/
def crcStep (c : Nat) : Nat :=
  if c % 2 = 1 then (c / 2) ^^^ 0xEDB88320 else c / 2

/-- Modelled from the spec: absorb one byte into a CRC32 accumulator. -/
def crcByte (c b : Nat) : Nat := crcStep^[8] (c ^^^ b)

/-- Modelled from the spec: zlib `crc32` over a byte list with initial
value 0 (`crc32(0, Z_NULL, 0)` followed by one update over the range). -/
def crc32 (data : List Nat) : Nat :=
  (data.foldl crcByte 0xFFFFFFFF) ^^^ 0xFFFFFFFF

/-- The four big-endian bytes of a 32-bit value, as written by
`png_add_unsigned` (`(val >> 24) & 0xff`, ..., `val & 0xff`). -/
def u32be (v : Nat) : List Nat :=
  [(v >>> 24) % 256, (v >>> 16) % 256, (v >>> 8) % 256, v % 256]

/-- Big-endian decoding of a byte list (used to state that stored
4-byte fields decode back to the intended value). -/
def beDecode (bs : List Nat) : Nat := bs.foldl (fun a b => 256 * a + b) 0

/-- One capacity-checked byte store `if (pngptr < pngend) *pngptr++ = b;`.
The buffer is the list of bytes written so far, `pos` is `pngptr` as an
offset, `cap` is `pngend` as an offset.  When the check fails the pointer
does not advance and the byte is silently dropped, exactly as in the C. -/
def pngWriteByte (buf : List Nat) (pos cap b : Nat) : List Nat × Nat :=
  if pos < cap then
    (if pos < buf.length then buf.set pos b else buf ++ [b], pos + 1)
  else (buf, pos)

/-- `png_add_unsigned(val, pngptr, pngend)`: append the four big-endian
bytes of `val`, each store individually bounds-checked. -/
def png_add_unsigned (val : Nat) (buf : List Nat) (pos cap : Nat) : List Nat × Nat :=
  let s1 := pngWriteByte buf pos cap ((val >>> 24) % 256)
  let s2 := pngWriteByte s1.1 s1.2 cap ((val >>> 16) % 256)
  let s3 := pngWriteByte s2.1 s2.2 cap ((val >>> 8) % 256)
  pngWriteByte s3.1 s3.2 cap (val % 256)

/-- `png_add_crc(pngdata, pngptr, pngend)`: CRC32 over the bytes from
offset `pngdata` up to `pos` (chunk type plus payload), appended via
`png_add_unsigned`. -/
def png_add_crc (pngdata : Nat) (buf : List Nat) (pos cap : Nat) : List Nat × Nat :=
  png_add_unsigned (crc32 ((buf.take pos).drop pngdata)) buf pos cap

/-- One unchecked byte store `*pngptr++ = b;` (the C writes these without
a capacity test; in every modelled execution they land in bounds). -/
def rawWriteByte (buf : List Nat) (pos b : Nat) : List Nat × Nat :=
  (if pos < buf.length then buf.set pos b else buf ++ [b], pos + 1)

/-- A run of consecutive unchecked byte stores. -/
def rawWriteBytes (buf : List Nat) (pos : Nat) (bs : List Nat) : List Nat × Nat :=
  bs.foldl (fun s b => rawWriteByte s.1 s.2 b) (buf, pos)

/-- The 8-byte PNG file signature written first. -/
def pngSignature : List Nat := [137, 80, 78, 71, 13, 10, 26, 10]

/-- `linelen = (size + 7) / 8` with `size = QR_SCALE * (n + 2 * QR_PADDING)`:
bytes of packed pixels per scanline (excluding the filter byte). -/
def linelen (n : Nat) : Nat := (QR_SCALE * (n + 2 * QR_PADDING) + 7) / 8

/-- The IHDR chunk type tag and its 13-byte payload: width and height
(both `size`), bit depth 1, color type 0, compression 0, filter 0,
interlace 0. -/
def ihdrChunkData (n : Nat) : List Nat :=
  [73, 72, 68, 82] ++ u32be (QR_SCALE * (n + 2 * QR_PADDING))
    ++ u32be (QR_SCALE * (n + 2 * QR_PADDING)) ++ [1, 0, 0, 0, 0]

/-- The PNG container construction of `main` (lines 200-327), with the
compressed IDAT payload `idat` (the bytes deflate wrote through
`next_out`) taken as a parameter: signature, IHDR chunk, 4 reserved
length bytes (modelled as zeros, backfilled after compression), IDAT
type and data, the backfilled length `pngptr - pngdata - 4`, the IDAT
CRC, and the IEND chunk.  Returns the buffer and the final `pngptr`. -/
def pngEncode (n : Nat) (idat : List Nat) : List Nat × Nat :=
  let size := QR_SCALE * (n + 2 * QR_PADDING)
  let s := rawWriteBytes [] 0 pngSignature
  let s := png_add_unsigned 13 s.1 s.2 PNGBUF_SIZE
  let ihdrStart := s.2
  let s := rawWriteBytes s.1 s.2 [73, 72, 68, 82]
  let s := png_add_unsigned size s.1 s.2 PNGBUF_SIZE
  let s := png_add_unsigned size s.1 s.2 PNGBUF_SIZE
  let s := rawWriteBytes s.1 s.2 [1, 0, 0, 0, 0]
  let s := png_add_crc ihdrStart s.1 s.2 PNGBUF_SIZE
  let s := rawWriteBytes s.1 s.2 [0, 0, 0, 0]
  let idatStart := s.2
  let s := rawWriteBytes s.1 s.2 [73, 68, 65, 84]
  let s := rawWriteBytes s.1 s.2 idat
  let back := png_add_unsigned (s.2 - idatStart - 4) s.1 (idatStart - 4) PNGBUF_SIZE
  let s := (back.1, s.2)
  let s := png_add_crc idatStart s.1 s.2 PNGBUF_SIZE
  let s := png_add_unsigned 0 s.1 s.2 PNGBUF_SIZE
  let iendStart := s.2
  let s := rawWriteBytes s.1 s.2 [73, 69, 78, 68]
  png_add_crc iendStart s.1 s.2 PNGBUF_SIZE

/-- Size of the PNG line buffer `line[1 + (QR_SCALE * (255 + 2 * QR_PADDING) + 7) / 8]`. -/
def LINEBUF_LEN : Nat := 1 + (QR_SCALE * (255 + 2 * QR_PADDING) + 7) / 8

/-- State of the inner pixel-packing loop of `main` (lines 267-282):
the line buffer, the byte pointer `lineptr` (as an index into `line`),
the current bit mask `bit`, and an instrumentation flag that records
whether any store was attempted out of the buffer's bounds. -/
structure LineState where
  line : List Nat
  ptr : Nat
  bit : Nat
  oob : Bool
  deriving DecidableEq

/-- One iteration of the `x0` loop: `if (qrset) *lineptr ^= bit;` then
advance the bit (`bit == 1 ? (lineptr++, bit = 128) : bit /= 2`). -/
def xorStep (qrset : Bool) (s : LineState) : LineState :=
  let line := if qrset then s.line.set s.ptr ((s.line.getD s.ptr 0) ^^^ s.bit) else s.line
  let oob := s.oob || (qrset && decide (s.line.length ≤ s.ptr))
  if s.bit = 1 then ⟨line, s.ptr + 1, 128, oob⟩ else ⟨line, s.ptr, s.bit / 2, oob⟩

/-- The `x` loop of `main` (lines 267-282): for each module column `x`
of row `row`, run `QR_SCALE` iterations of `xorStep` with
`qrset = row x`. -/
def xorRow (n : Nat) (row : Nat → Bool) (s : LineState) : LineState :=
  (List.range n).foldl (fun s x => (xorStep (row x))^[QR_SCALE] s) s

/-- `xoff = (QR_SCALE * QR_PADDING) / 8`. -/
def xoff : Nat := (QR_SCALE * QR_PADDING) / 8

/-- `xmod = (QR_SCALE * QR_PADDING) & 7`. -/
def xmod : Nat := (QR_SCALE * QR_PADDING) % 8

/-- The line buffer as prepared before the `x` loop: filter byte 0
(line 250), `memset(line + 1, 0xff, linelen)` (line 265); the bytes past
`linelen` are never initialized by the C and are modelled as zeros. -/
def initLine (n : Nat) : List Nat :=
  0 :: (List.replicate (linelen n) 255 ++ List.replicate (LINEBUF_LEN - 1 - linelen n) 0)

/-- The full line state after packing one module row `row`:
`lineptr = line + 1 + xoff`, `bit = 128 >> xmod`. -/
def synthRow (n : Nat) (row : Nat → Bool) : LineState :=
  xorRow n row ⟨initLine n, 1 + xoff, 128 >>> xmod, false⟩

/-- The synthesized scanline buffer for module row `y`. -/
def synthLine (n : Nat) (get : Nat → Nat → Bool) (y : Nat) : List Nat :=
  (synthRow n (fun x => get x y)).line

/-- Pixel bit `p` of a scanline: bit `7 - (p mod 8)` of byte `p / 8`
after the leading filter byte (`true` = background, `false` =
foreground). -/
def pixelBit (line : List Nat) (p : Nat) : Bool :=
  (line.getD (1 + p / 8) 0).testBit (7 - p % 8)

/-- An all-background padding scanline as fed to the compressor:
filter byte 0 followed by `linelen` bytes of 0xff. -/
def padScanline (n : Nat) : List Nat := 0 :: List.replicate (linelen n) 255

/-- Flush mode of a deflate call. -/
inductive ZFlush where
  | noFlush : ZFlush
  | finish : ZFlush
  deriving DecidableEq

/-- One observable compressor interaction: a `deflate` call supplying
`data` (`next_in` / `avail_in`) under flush mode `flush`. -/
inductive ZEvent where
  | feed : List Nat → ZFlush → ZEvent
  deriving DecidableEq

/-- The exact sequence of `deflate` calls `main` performs (lines
252-311): `QR_SCALE * QR_PADDING` top padding scanlines, then for each
module row `y` the synthesized scanline fed `QR_SCALE` times, then
`QR_SCALE * QR_PADDING` bottom padding scanlines, all with `Z_NO_FLUSH`
and `avail_in = linelen + 1`, then one final call with `avail_in = 0`
and `Z_FINISH`. -/
def pngFeedTrace (n : Nat) (get : Nat → Nat → Bool) : List ZEvent :=
  ((List.range (QR_SCALE * QR_PADDING)).map fun _ => ZEvent.feed (padScanline n) ZFlush.noFlush)
  ++ ((List.range n).flatMap fun y =>
       (List.range QR_SCALE).map fun _ =>
         ZEvent.feed ((synthLine n get y).take (1 + linelen n)) ZFlush.noFlush)
  ++ ((List.range (QR_SCALE * QR_PADDING)).map fun _ => ZEvent.feed (padScanline n) ZFlush.noFlush)
  ++ [ZEvent.feed [] ZFlush.finish]

/-- Scanline `i` of the padded image in feed order, described by index
arithmetic rather than by the three loops of the code: top padding for
`i < QR_SCALE * QR_PADDING`, then module row `(i - QR_SCALE * QR_PADDING) / QR_SCALE`,
then bottom padding. -/
def scanlineAt (n : Nat) (get : Nat → Nat → Bool) (i : Nat) : List Nat :=
  if i < QR_SCALE * QR_PADDING then padScanline n
  else if i < QR_SCALE * QR_PADDING + QR_SCALE * n then
    (synthLine n get ((i - QR_SCALE * QR_PADDING) / QR_SCALE)).take (1 + linelen n)
  else padScanline n

/-- The whole PNG byte stream as a function of the matrix and of the
deflate backend `D` (an arbitrary deterministic compressor mapping the
feed trace to the IDAT payload bytes). -/
def fullEncode (D : List ZEvent → List Nat) (n : Nat) (get : Nat → Nat → Bool) : List Nat :=
  (pngEncode n (D (pngFeedTrace n get))).1

/-- zlib return code `Z_OK`. -/
def Z_OK : Int := 0

/-- zlib return code `Z_STREAM_END`. -/
def Z_STREAM_END : Int := 1

/-- Distinguishable fatal error kinds of the PNG path of `main`:
`deflateInit2` failure (line 240), a failed `deflate` while feeding a
scanline (lines 257, 287, 299), and failure to reach `Z_STREAM_END` on
finish (line 308). -/
inductive EncErr where
  | initFail : Int → EncErr
  | feedFail : Int → EncErr
  | finishFail : Int → EncErr
  deriving DecidableEq

/-- Return codes of the zlib calls, as an oracle: `initCode` for
`deflateInit2`, `feedCode i` for the `i`-th scanline `deflate` call,
`finishCode` for the `Z_FINISH` call. -/
structure ZOracle where
  initCode : Int
  feedCode : Nat → Int
  finishCode : Int

/-- A run of `k` checked `deflate(..., Z_NO_FLUSH)` calls starting at
call index `i`: each call is checked `if ((zerr = deflate(...)) < Z_OK)
return 1;` and aborts the loop at once.  Returns the error (if any) and
the number of calls actually performed. -/
def deflateFeeds (o : ZOracle) : Nat → Nat → Option EncErr × Nat
  | _, 0 => (none, 0)
  | i, k + 1 =>
    if o.feedCode i < Z_OK then (some (EncErr.feedFail (o.feedCode i)), 1)
    else
      let r := deflateFeeds o (i + 1) k
      (r.1, r.2 + 1)

/-- Number of scanline `deflate` calls `main` issues for an `n`-module
matrix: top padding, `QR_SCALE` per module row, bottom padding. -/
def totalFeeds (n : Nat) : Nat :=
  QR_SCALE * QR_PADDING + n * QR_SCALE + QR_SCALE * QR_PADDING

/-- The compressor control flow of `main` (lines 240-311): the
`deflateInit2` check, the three feeding loops, and the `Z_FINISH` check,
each failure aborting immediately with its own error kind.  The second
component counts the `deflate` calls performed (the finish call
included). -/
def runCompression (o : ZOracle) (n : Nat) : Except EncErr Unit × Nat :=
  if o.initCode < Z_OK then (Except.error (EncErr.initFail o.initCode), 0)
  else
    let r1 := deflateFeeds o 0 (QR_SCALE * QR_PADDING)
    match r1.1 with
    | some e => (Except.error e, r1.2)
    | none =>
      let r2 := deflateFeeds o (QR_SCALE * QR_PADDING) (n * QR_SCALE)
      match r2.1 with
      | some e => (Except.error e, r1.2 + r2.2)
      | none =>
        let r3 := deflateFeeds o (QR_SCALE * QR_PADDING + n * QR_SCALE) (QR_SCALE * QR_PADDING)
        match r3.1 with
        | some e => (Except.error e, r1.2 + r2.2 + r3.2)
        | none =>
          if o.finishCode ≠ Z_STREAM_END then
            (Except.error (EncErr.finishFail o.finishCode), r1.2 + r2.2 + r3.2 + 1)
          else (Except.ok (), r1.2 + r2.2 + r3.2 + 1)

/-- The bytes the program emits on stdout: on any compressor error
`main` returns 1 before the final `fwrite`, so nothing is written; on
success the assembled PNG buffer is written. -/
def encodeResult (o : ZOracle) (n : Nat) (idat : List Nat) : Except EncErr (List Nat) :=
  match (runCompression o n).1 with
  | Except.error e => Except.error e
  | Except.ok _ => Except.ok (pngEncode n idat).1

/-- One rectangle of the SVG output: position, size, and whether it is
filled black (foreground) rather than white (background). -/
structure SvgRect where
  x : Nat
  y : Nat
  w : Nat
  h : Nat
  black : Bool
  deriving DecidableEq

/-- One step of the SVG run-detection loop of `main` (lines 161-169),
with state `(xstart, xcount, emitted rectangles)`. -/
def svgRowStep (row : Nat → Bool) (y : Nat)
    (s : Nat × Nat × List SvgRect) (x : Nat) : Nat × Nat × List SvgRect :=
  if row x then (if s.2.1 = 0 then x else s.1, s.2.1 + 1, s.2.2)
  else if 0 < s.2.1 then
    (s.1, 0, s.2.2 ++ [⟨(s.1 + QR_PADDING) * QR_SCALE, (y + QR_PADDING) * QR_SCALE,
                        s.2.1 * QR_SCALE, QR_SCALE, true⟩])
  else s

/-- The rectangles emitted for one SVG row (lines 158-174), including
the trailing-run emission after the `x` loop (lines 171-173). -/
def svgRowRects (row : Nat → Bool) (y n : Nat) : List SvgRect :=
  let s := (List.range n).foldl (svgRowStep row y) (0, 0, [])
  s.2.2 ++ (if 0 < s.2.1 then
    [⟨(s.1 + QR_PADDING) * QR_SCALE, (y + QR_PADDING) * QR_SCALE,
      s.2.1 * QR_SCALE, QR_SCALE, true⟩] else [])

/-- The SVG document of `main` (lines 153-176): canvas width and height
`(size + 2 * QR_PADDING) * QR_SCALE`, a full-canvas white rectangle,
then the black run rectangles row by row. -/
def svgDoc (n : Nat) (get : Nat → Nat → Bool) : (Nat × Nat) × List SvgRect :=
  (((n + 2 * QR_PADDING) * QR_SCALE, (n + 2 * QR_PADDING) * QR_SCALE),
   ⟨0, 0, (n + 2 * QR_PADDING) * QR_SCALE, (n + 2 * QR_PADDING) * QR_SCALE, false⟩ ::
     (List.range n).flatMap fun y => svgRowRects (fun x => get x y) y n)

/-- Whether column `s` starts a maximal horizontal run of set modules:
the module is set and either `s` is the first column or the previous
module is clear (stated from the spec's description of the SVG path). -/
def isRunStart (row : Nat → Bool) (s : Nat) : Bool :=
  row s && (s = 0 || !row (s - 1))

/-- Length of the run of set modules starting at `s`, limited by the
remaining fuel (the distance to the right edge of the matrix). -/
def runLenAux (row : Nat → Bool) : Nat → Nat → Nat
  | _, 0 => 0
  | s, f + 1 => if row s then runLenAux row (s + 1) f + 1 else 0

/-- The maximal horizontal runs of set modules of a row, as
`(start, length)` pairs in column order (stated from the spec, not from
the loop in the code). -/
def specRuns (row : Nat → Bool) (n : Nat) : List (Nat × Nat) :=
  (List.range n).filterMap fun s =>
    if isRunStart row s then some (s, runLenAux row s (n - s)) else none

/-- The rectangle the spec prescribes for a maximal run `(s, len)` of
row `y`. -/
def runRect (y : Nat) (r : Nat × Nat) : SvgRect :=
  ⟨(r.1 + QR_PADDING) * QR_SCALE, (y + QR_PADDING) * QR_SCALE, r.2 * QR_SCALE, QR_SCALE, true⟩

/-- Flip pixel bit `p` of a scanline: XOR byte `1 + p / 8` with the mask
`128 >> (p mod 8)` (the abstract effect of one set-module store). -/
def flipBit (line : List Nat) (p : Nat) : List Nat :=
  line.set (1 + p / 8) ((line.getD (1 + p / 8) 0) ^^^ (128 >>> (p % 8)))

/-- Flip the `k` consecutive pixel bits starting at `p`. -/
def flipRange : List Nat → Nat → Nat → List Nat
  | line, _, 0 => line
  | line, p, k + 1 => flipRange (flipBit line p) (p + 1) k

/-- Cumulative effect of the first `m` module columns on the line:
module `x` (when set) flips the `QR_SCALE` bits starting at pixel
`p + QR_SCALE * x`. -/
def rowFlips (line : List Nat) (p : Nat) (row : Nat → Bool) : Nat → List Nat
  | 0 => line
  | m + 1 =>
    let l := rowFlips line p row m
    if row m then flipRange l (p + QR_SCALE * m) QR_SCALE else l

/-- Length of the maximal run of set modules ending just before column
`m` (used to describe the SVG loop state `xcount`). -/
def trailing (row : Nat → Bool) : Nat → Nat
  | 0 => 0
  | m + 1 => if row m then trailing row m + 1 else 0


/-- The assembled PNG byte stream, written out as one concatenation
(signature, IHDR length, IHDR type+payload, IHDR CRC, IDAT length,
IDAT type+payload, IDAT CRC, IEND length, IEND type, IEND CRC). -/
def pngChain (n : Nat) (idat : List Nat) : List Nat :=
  pngSignature ++ u32be 13 ++ ihdrChunkData n ++ u32be (crc32 (ihdrChunkData n))
    ++ u32be idat.length ++ ([73, 68, 65, 84] ++ idat)
    ++ u32be (crc32 ([73, 68, 65, 84] ++ idat))
    ++ u32be 0 ++ [73, 69, 78, 68] ++ u32be (crc32 [73, 69, 78, 68])

/-! ## Buffer-write lemmas -/

@[simp] theorem u32be_length (v : Nat) : (u32be v).length = 4 := rfl

@[simp] theorem pngSignature_length : pngSignature.length = 8 := rfl

@[simp] theorem ihdrChunkData_length (n : Nat) : (ihdrChunkData n).length = 17 := by
  simp [ihdrChunkData]

theorem rawWriteByte_append (buf : List Nat) (pos b : Nat) (hp : pos = buf.length) :
    rawWriteByte buf pos b = (buf ++ [b], pos + 1) := by
  subst hp; simp [rawWriteByte]

theorem rawWriteBytes_append : ∀ (bs buf : List Nat) (pos : Nat), pos = buf.length →
    rawWriteBytes buf pos bs = (buf ++ bs, pos + bs.length)
  | [], buf, pos, hp => by simp [rawWriteBytes]
  | b :: bs, buf, pos, hp => by
    simp only [rawWriteBytes, List.foldl_cons]
    rw [rawWriteByte_append buf pos b hp]
    have := rawWriteBytes_append bs (buf ++ [b]) (pos + 1) (by simp [hp])
    simp only [rawWriteBytes] at this
    rw [this]
    simp [List.append_assoc]
    omega

theorem pngWriteByte_append (buf : List Nat) (pos cap b : Nat)
    (hc : pos < cap) (hp : pos = buf.length) :
    pngWriteByte buf pos cap b = (buf ++ [b], pos + 1) := by
  subst hp; simp [pngWriteByte, hc]

theorem png_add_unsigned_append (val : Nat) (buf : List Nat) (pos cap : Nat)
    (hc : pos + 4 ≤ cap) (hp : pos = buf.length) :
    png_add_unsigned val buf pos cap = (buf ++ u32be val, pos + 4) := by
  simp only [png_add_unsigned]
  rw [pngWriteByte_append buf pos cap _ (by omega) hp]
  simp only
  rw [pngWriteByte_append _ (pos + 1) cap _ (by omega) (by simp [hp])]
  simp only
  rw [pngWriteByte_append _ (pos + 2) cap _ (by omega) (by simp [hp])]
  simp only
  rw [pngWriteByte_append _ (pos + 3) cap _ (by omega) (by simp [hp])]
  simp [u32be, List.append_assoc]

theorem png_add_crc_closed (A T : List Nat) (pngdata pos cap : Nat)
    (hd : pngdata = A.length) (hp : pos = A.length + T.length) (hc : pos + 4 ≤ cap) :
    png_add_crc pngdata (A ++ T) pos cap = (A ++ T ++ u32be (crc32 T), pos + 4) := by
  have hlen : pos = (A ++ T).length := by simp [hp]
  have htake : ((A ++ T).take pos).drop pngdata = T := by
    rw [hlen, List.take_length, hd, List.drop_left]
  rw [png_add_crc, htake, png_add_unsigned_append _ _ _ _ hc hlen, List.append_assoc]

theorem pngWriteByte_set (P R : List Nat) (c b pos cap : Nat)
    (hc : pos < cap) (hp : pos = P.length) :
    pngWriteByte (P ++ c :: R) pos cap b = (P ++ b :: R, pos + 1) := by
  subst hp
  have hlt : P.length < (P ++ c :: R).length := by simp
  simp only [pngWriteByte, if_pos hc, if_pos hlt]
  rw [List.set_append_right _ _ (Nat.le_refl _)]
  simp

theorem png_add_unsigned_backfill (val : Nat) (P R : List Nat) (c0 c1 c2 c3 pos cap : Nat)
    (hc : pos + 4 ≤ cap) (hp : pos = P.length) :
    png_add_unsigned val (P ++ c0 :: c1 :: c2 :: c3 :: R) pos cap
      = (P ++ u32be val ++ R, pos + 4) := by
  simp only [png_add_unsigned]
  rw [pngWriteByte_set P _ _ _ _ _ (by omega) hp]
  simp only
  rw [show P ++ (val >>> 24) % 256 :: c1 :: c2 :: c3 :: R
        = (P ++ [(val >>> 24) % 256]) ++ c1 :: c2 :: c3 :: R by simp]
  rw [pngWriteByte_set _ _ _ _ _ _ (by omega) (by simp [hp])]
  simp only
  rw [show (P ++ [(val >>> 24) % 256]) ++ (val >>> 16) % 256 :: c2 :: c3 :: R
        = (P ++ [(val >>> 24) % 256, (val >>> 16) % 256]) ++ c2 :: c3 :: R by simp]
  rw [pngWriteByte_set _ _ _ _ _ _ (by omega) (by simp [hp])]
  simp only
  rw [show (P ++ [(val >>> 24) % 256, (val >>> 16) % 256]) ++ (val >>> 8) % 256 :: c3 :: R
        = (P ++ [(val >>> 24) % 256, (val >>> 16) % 256, (val >>> 8) % 256]) ++ c3 :: R by simp]
  rw [pngWriteByte_set _ _ _ _ _ _ (by omega) (by simp [hp])]
  simp [u32be]

theorem pngEncode_closed (n : Nat) (idat : List Nat) (h : 57 + idat.length ≤ PNGBUF_SIZE) :
    pngEncode n idat = (pngChain n idat, 57 + idat.length) := by
  have hP : PNGBUF_SIZE = 65536 := rfl
  have hh : 57 + idat.length ≤ 65536 := by rwa [hP] at h
  simp only [pngEncode]
  rw [rawWriteBytes_append pngSignature [] 0 rfl]
  simp only [List.nil_append, pngSignature_length, List.length_cons, List.length_nil,
    Nat.reduceAdd, List.append_assoc]
  rw [png_add_unsigned_append 13 pngSignature 8 PNGBUF_SIZE (by omega) (by simp)]
  simp only [Nat.reduceAdd, List.append_assoc]
  rw [rawWriteBytes_append [73, 72, 68, 82] (pngSignature ++ u32be 13) 12 (by simp)]
  simp only [List.length_cons, List.length_nil, Nat.reduceAdd, List.append_assoc]
  rw [png_add_unsigned_append (QR_SCALE * (n + 2 * QR_PADDING))
        (pngSignature ++ (u32be 13 ++ [73, 72, 68, 82])) 16 PNGBUF_SIZE (by omega) (by simp)]
  simp only [Nat.reduceAdd, List.append_assoc]
  rw [png_add_unsigned_append (QR_SCALE * (n + 2 * QR_PADDING))
        (pngSignature ++ (u32be 13 ++ ([73, 72, 68, 82]
          ++ u32be (QR_SCALE * (n + 2 * QR_PADDING))))) 20 PNGBUF_SIZE (by omega) (by simp)]
  simp only [Nat.reduceAdd, List.append_assoc]
  rw [rawWriteBytes_append [1, 0, 0, 0, 0]
        (pngSignature ++ (u32be 13 ++ ([73, 72, 68, 82]
          ++ (u32be (QR_SCALE * (n + 2 * QR_PADDING))
            ++ u32be (QR_SCALE * (n + 2 * QR_PADDING)))))) 24 (by simp)]
  simp only [List.length_cons, List.length_nil, Nat.reduceAdd, List.append_assoc]
  rw [show pngSignature ++ (u32be 13 ++ ([73, 72, 68, 82]
          ++ (u32be (QR_SCALE * (n + 2 * QR_PADDING))
            ++ (u32be (QR_SCALE * (n + 2 * QR_PADDING)) ++ [1, 0, 0, 0, 0]))))
        = (pngSignature ++ u32be 13) ++ ihdrChunkData n from by simp [ihdrChunkData]]
  rw [png_add_crc_closed (pngSignature ++ u32be 13) (ihdrChunkData n) 12 29 PNGBUF_SIZE
        (by simp) (by simp) (by omega)]
  simp only [Nat.reduceAdd, List.append_assoc]
  rw [rawWriteBytes_append [0, 0, 0, 0]
        (pngSignature ++ (u32be 13 ++ (ihdrChunkData n ++ u32be (crc32 (ihdrChunkData n)))))
        33 (by simp)]
  simp only [List.length_cons, List.length_nil, Nat.reduceAdd, List.append_assoc]
  rw [rawWriteBytes_append [73, 68, 65, 84]
        (pngSignature ++ (u32be 13 ++ (ihdrChunkData n ++ (u32be (crc32 (ihdrChunkData n))
          ++ [0, 0, 0, 0])))) 37 (by simp)]
  simp only [List.length_cons, List.length_nil, Nat.reduceAdd, List.append_assoc]
  rw [rawWriteBytes_append idat
        (pngSignature ++ (u32be 13 ++ (ihdrChunkData n ++ (u32be (crc32 (ihdrChunkData n))
          ++ ([0, 0, 0, 0] ++ [73, 68, 65, 84]))))) 41 (by simp)]
  simp only [Nat.reduceSub, List.append_assoc]
  rw [show 41 + idat.length - 37 - 4 = idat.length from by omega]
  rw [show pngSignature ++ (u32be 13 ++ (ihdrChunkData n ++ (u32be (crc32 (ihdrChunkData n))
          ++ ([0, 0, 0, 0] ++ ([73, 68, 65, 84] ++ idat)))))
        = (pngSignature ++ (u32be 13 ++ (ihdrChunkData n ++ u32be (crc32 (ihdrChunkData n)))))
          ++ (0 : Nat) :: 0 :: 0 :: 0 :: ([73, 68, 65, 84] ++ idat) from by simp]
  rw [png_add_unsigned_backfill idat.length
        (pngSignature ++ (u32be 13 ++ (ihdrChunkData n ++ u32be (crc32 (ihdrChunkData n)))))
        ([73, 68, 65, 84] ++ idat) 0 0 0 0 33 PNGBUF_SIZE (by omega) (by simp)]
  rw [show (pngSignature ++ (u32be 13 ++ (ihdrChunkData n ++ u32be (crc32 (ihdrChunkData n)))))
          ++ u32be idat.length ++ ([73, 68, 65, 84] ++ idat)
        = ((pngSignature ++ (u32be 13 ++ (ihdrChunkData n ++ u32be (crc32 (ihdrChunkData n)))))
            ++ u32be idat.length) ++ ([73, 68, 65, 84] ++ idat) from by simp]
  rw [png_add_crc_closed
        ((pngSignature ++ (u32be 13 ++ (ihdrChunkData n ++ u32be (crc32 (ihdrChunkData n)))))
          ++ u32be idat.length)
        ([73, 68, 65, 84] ++ idat) 37 (41 + idat.length) PNGBUF_SIZE
        (by simp) (by simp; omega) (by simp only [hP]; omega)]
  rw [png_add_unsigned_append 0 _ (41 + idat.length + 4) PNGBUF_SIZE
        (by simp only [hP]; omega) (by simp; omega)]
  rw [rawWriteBytes_append [73, 69, 78, 68] _ (41 + idat.length + 4 + 4) (by simp; omega)]
  simp only [List.length_cons, List.length_nil, Nat.reduceAdd]
  rw [png_add_crc_closed _ [73, 69, 78, 68] (41 + idat.length + 4 + 4)
        (41 + idat.length + 4 + 4 + 4)
        PNGBUF_SIZE (by simp; omega) (by simp; omega) (by simp only [hP]; omega)]
  rw [Prod.mk.injEq]
  constructor
  · simp [pngChain, ihdrChunkData, List.append_assoc]
  · omega

theorem seg_extract (A B R : List Nat) (d t : Nat) (hA : A.length = d) (hB : B.length = t) :
    ((A ++ (B ++ R)).drop d).take t = B := by
  rw [List.drop_left' hA, List.take_left' hB]

theorem pngFields (n : Nat) (idat : List Nat) (h : 57 + idat.length ≤ PNGBUF_SIZE) :
    ((pngEncode n idat).1.take 8 = pngSignature)
    ∧ (((pngEncode n idat).1.drop (8)).take (4) = u32be 13)
    ∧ (((pngEncode n idat).1.drop (12)).take (17) = ihdrChunkData n)
    ∧ (((pngEncode n idat).1.drop (29)).take (4) = u32be (crc32 (ihdrChunkData n)))
    ∧ (((pngEncode n idat).1.drop (33)).take (4) = u32be idat.length)
    ∧ (((pngEncode n idat).1.drop (37)).take (4 + idat.length) = ([73, 68, 65, 84] ++ idat))
    ∧ (((pngEncode n idat).1.drop (37)).take (4) = [73, 68, 65, 84])
    ∧ (((pngEncode n idat).1.drop 41).take idat.length = idat)
    ∧ (((pngEncode n idat).1.drop (41 + idat.length)).take (4) = u32be (crc32 ([73, 68, 65, 84] ++ idat)))
    ∧ (((pngEncode n idat).1.drop (45 + idat.length)).take (4) = u32be 0)
    ∧ (((pngEncode n idat).1.drop (49 + idat.length)).take (4) = [73, 69, 78, 68])
    ∧ (((pngEncode n idat).1.drop (53 + idat.length)).take (4) = u32be (crc32 [73, 69, 78, 68]))
    ∧ ((pngEncode n idat).1.length = 57 + idat.length) := by
  have hf1 : (pngEncode n idat).1 = pngChain n idat := by rw [pngEncode_closed n idat h]
  refine ⟨?_, ?_, ?_, ?_, ?_, ?_, ?_, ?_, ?_, ?_, ?_, ?_, ?_⟩
  · rw [hf1, show pngChain n idat = pngSignature ++ (u32be 13 ++ (ihdrChunkData n ++ (u32be (crc32 (ihdrChunkData n)) ++ (u32be idat.length ++ (([73, 68, 65, 84] ++ idat) ++ (u32be (crc32 ([73, 68, 65, 84] ++ idat)) ++ (u32be 0 ++ ([73, 69, 78, 68] ++ (u32be (crc32 [73, 69, 78, 68])))))))))) from by simp [pngChain]]
    exact List.take_left' (by simp)
  · rw [hf1, show pngChain n idat = (pngSignature) ++ ((u32be 13) ++ (ihdrChunkData n ++ (u32be (crc32 (ihdrChunkData n)) ++ (u32be idat.length ++ (([73, 68, 65, 84] ++ idat) ++ (u32be (crc32 ([73, 68, 65, 84] ++ idat)) ++ (u32be 0 ++ ([73, 69, 78, 68] ++ (u32be (crc32 [73, 69, 78, 68])))))))))) from by simp [pngChain]]
    exact seg_extract _ _ _ _ _ (by simp; try omega) (by simp; try omega)
  · rw [hf1, show pngChain n idat = (pngSignature ++ (u32be 13)) ++ ((ihdrChunkData n) ++ (u32be (crc32 (ihdrChunkData n)) ++ (u32be idat.length ++ (([73, 68, 65, 84] ++ idat) ++ (u32be (crc32 ([73, 68, 65, 84] ++ idat)) ++ (u32be 0 ++ ([73, 69, 78, 68] ++ (u32be (crc32 [73, 69, 78, 68]))))))))) from by simp [pngChain]]
    exact seg_extract _ _ _ _ _ (by simp; try omega) (by simp; try omega)
  · rw [hf1, show pngChain n idat = (pngSignature ++ (u32be 13 ++ (ihdrChunkData n))) ++ ((u32be (crc32 (ihdrChunkData n))) ++ (u32be idat.length ++ (([73, 68, 65, 84] ++ idat) ++ (u32be (crc32 ([73, 68, 65, 84] ++ idat)) ++ (u32be 0 ++ ([73, 69, 78, 68] ++ (u32be (crc32 [73, 69, 78, 68])))))))) from by simp [pngChain]]
    exact seg_extract _ _ _ _ _ (by simp; try omega) (by simp; try omega)
  · rw [hf1, show pngChain n idat = (pngSignature ++ (u32be 13 ++ (ihdrChunkData n ++ (u32be (crc32 (ihdrChunkData n)))))) ++ ((u32be idat.length) ++ (([73, 68, 65, 84] ++ idat) ++ (u32be (crc32 ([73, 68, 65, 84] ++ idat)) ++ (u32be 0 ++ ([73, 69, 78, 68] ++ (u32be (crc32 [73, 69, 78, 68]))))))) from by simp [pngChain]]
    exact seg_extract _ _ _ _ _ (by simp; try omega) (by simp; try omega)
  · rw [hf1, show pngChain n idat = (pngSignature ++ (u32be 13 ++ (ihdrChunkData n ++ (u32be (crc32 (ihdrChunkData n)) ++ (u32be idat.length))))) ++ ((([73, 68, 65, 84] ++ idat)) ++ (u32be (crc32 ([73, 68, 65, 84] ++ idat)) ++ (u32be 0 ++ ([73, 69, 78, 68] ++ (u32be (crc32 [73, 69, 78, 68])))))) from by simp [pngChain]]
    exact seg_extract _ _ _ _ _ (by simp; try omega) (by simp; try omega)
  · rw [hf1, show pngChain n idat = (pngSignature ++ (u32be 13 ++ (ihdrChunkData n ++ (u32be (crc32 (ihdrChunkData n)) ++ (u32be idat.length))))) ++ (([73, 68, 65, 84]) ++ (idat ++ (u32be (crc32 ([73, 68, 65, 84] ++ idat)) ++ (u32be 0 ++ ([73, 69, 78, 68] ++ (u32be (crc32 [73, 69, 78, 68]))))))) from by simp [pngChain]]
    exact seg_extract _ _ _ _ _ (by simp; try omega) (by simp; try omega)
  · rw [hf1, show pngChain n idat = (pngSignature ++ (u32be 13 ++ (ihdrChunkData n ++ (u32be (crc32 (ihdrChunkData n)) ++ (u32be idat.length ++ ([73, 68, 65, 84])))))) ++ (idat ++ (u32be (crc32 ([73, 68, 65, 84] ++ idat)) ++ (u32be 0 ++ ([73, 69, 78, 68] ++ (u32be (crc32 [73, 69, 78, 68])))))) from by simp [pngChain]]
    exact seg_extract _ _ _ _ _ (by simp; try omega) rfl
  · rw [hf1, show pngChain n idat = (pngSignature ++ (u32be 13 ++ (ihdrChunkData n ++ (u32be (crc32 (ihdrChunkData n)) ++ (u32be idat.length ++ (([73, 68, 65, 84] ++ idat))))))) ++ ((u32be (crc32 ([73, 68, 65, 84] ++ idat))) ++ (u32be 0 ++ ([73, 69, 78, 68] ++ (u32be (crc32 [73, 69, 78, 68]))))) from by simp [pngChain]]
    exact seg_extract _ _ _ _ _ (by simp; try omega) (by simp; try omega)
  · rw [hf1, show pngChain n idat = (pngSignature ++ (u32be 13 ++ (ihdrChunkData n ++ (u32be (crc32 (ihdrChunkData n)) ++ (u32be idat.length ++ (([73, 68, 65, 84] ++ idat) ++ (u32be (crc32 ([73, 68, 65, 84] ++ idat))))))))) ++ ((u32be 0) ++ ([73, 69, 78, 68] ++ (u32be (crc32 [73, 69, 78, 68])))) from by simp [pngChain]]
    exact seg_extract _ _ _ _ _ (by simp; try omega) (by simp; try omega)
  · rw [hf1, show pngChain n idat = (pngSignature ++ (u32be 13 ++ (ihdrChunkData n ++ (u32be (crc32 (ihdrChunkData n)) ++ (u32be idat.length ++ (([73, 68, 65, 84] ++ idat) ++ (u32be (crc32 ([73, 68, 65, 84] ++ idat)) ++ (u32be 0)))))))) ++ (([73, 69, 78, 68]) ++ (u32be (crc32 [73, 69, 78, 68]))) from by simp [pngChain]]
    exact seg_extract _ _ _ _ _ (by simp; try omega) (by simp; try omega)
  · rw [hf1, show pngChain n idat = (pngSignature ++ (u32be 13 ++ (ihdrChunkData n ++ (u32be (crc32 (ihdrChunkData n)) ++ (u32be idat.length ++ (([73, 68, 65, 84] ++ idat) ++ (u32be (crc32 ([73, 68, 65, 84] ++ idat)) ++ (u32be 0 ++ ([73, 69, 78, 68]))))))))) ++ ((u32be (crc32 [73, 69, 78, 68])) ++ (([] : List Nat))) from by simp [pngChain]]
    exact seg_extract _ _ _ _ _ (by simp; try omega) (by simp; try omega)
  · rw [hf1]; simp [pngChain, ihdrChunkData]; try omega

theorem beDecode_u32be (v : Nat) (h : v < 2 ^ 32) : beDecode (u32be v) = v := by
  simp [beDecode, u32be, Nat.shiftRight_eq_div_pow]
  omega

/-! ## C1 -/

/-- C1: the claim (with the spec) requires that any write landing past the
end of the bounded output buffer be treated as an explicitly signalled
fatal overflow error, never a silently truncated byte sequence.  The code
has no overflow error channel: evaluating the embedded
`png_add_unsigned` with 3 bytes of remaining capacity (an output buffer
exactly one byte smaller than the 4 bytes this write requires) shows it
stores 3 bytes, silently drops the 4th, and returns normally; its return
type carries no error indication of any kind. -/
theorem spec_C1_silent_truncation :
    png_add_unsigned 0x11223344 [] 0 3 = ([0x11, 0x22, 0x33], 3) := by decide

/-! ## C4 -/

/-- C4: for each of the three chunks (IHDR, IDAT, IEND), the stored
4-byte CRC field equals CRC32 computed over exactly the stored type tag
concatenated with the stored payload bytes — the length field and the
CRC field itself are not covered. -/
theorem spec_C4_chunk_crcs (n : Nat) (idat : List Nat)
    (h : 57 + idat.length ≤ PNGBUF_SIZE) :
    ((pngEncode n idat).1.drop 29).take 4
      = u32be (crc32 (((pngEncode n idat).1.drop 12).take 17))
    ∧ ((pngEncode n idat).1.drop (41 + idat.length)).take 4
      = u32be (crc32 (((pngEncode n idat).1.drop 37).take (4 + idat.length)))
    ∧ ((pngEncode n idat).1.drop (53 + idat.length)).take 4
      = u32be (crc32 (((pngEncode n idat).1.drop (49 + idat.length)).take 4)) := by
  obtain ⟨f1, f2, f3, f4, f5, f6, f7, f8, f9, f10, f11, f12, f13⟩ := pngFields n idat h
  refine ⟨?_, ?_, ?_⟩
  · rw [f4, f3]
  · rw [f9, f6]
  · rw [f12, f11]

/-- C4 witness at a concrete input. -/
theorem spec_C4_chunk_crcs_witness :
    ((pngEncode 1 []).1.drop 29).take 4
      = u32be (crc32 (((pngEncode 1 []).1.drop 12).take 17)) :=
  (spec_C4_chunk_crcs 1 [] (by norm_num [PNGBUF_SIZE])).1

/-! ## C5 -/

/-- C5: for each chunk, the 4-byte big-endian length field stored before
the type tag decodes to the chunk's actual payload byte count: 13 for the
header chunk, the backfilled `idat.length` for the data chunk (whose
stored payload bytes are exactly `idat`), and 0 for the empty terminator
chunk. -/
theorem spec_C5_chunk_lengths (n : Nat) (idat : List Nat)
    (h : 57 + idat.length ≤ PNGBUF_SIZE) :
    beDecode (((pngEncode n idat).1.drop 8).take 4) = 13
    ∧ beDecode (((pngEncode n idat).1.drop 33).take 4) = idat.length
    ∧ ((pngEncode n idat).1.drop 41).take idat.length = idat
    ∧ beDecode (((pngEncode n idat).1.drop (45 + idat.length)).take 4) = 0 := by
  obtain ⟨f1, f2, f3, f4, f5, f6, f7, f8, f9, f10, f11, f12, f13⟩ := pngFields n idat h
  have hL : idat.length < 2 ^ 32 := by
    simp only [PNGBUF_SIZE] at h; omega
  refine ⟨?_, ?_, f8, ?_⟩
  · rw [f2]; decide
  · rw [f5]; exact beDecode_u32be idat.length hL
  · rw [f10]; decide

/-- C5 witness at a concrete input. -/
theorem spec_C5_chunk_lengths_witness :
    beDecode (((pngEncode 1 [99]).1.drop 33).take 4) = 1 :=
  (spec_C5_chunk_lengths 1 [99] (by norm_num [PNGBUF_SIZE])).2.1

/-! ## C6 -/

/-- C6: the emitted byte stream begins with the fixed 8-byte PNG
signature 137 80 78 71 13 10 26 10, followed by the header chunk whose
13-byte payload holds width and height, both the big-endian encoding of
`imageSize = QR_SCALE * (n + 2 * QR_PADDING)`, then bit depth 1, color
type 0 (grayscale), compression 0, filter 0, interlace 0. -/
theorem spec_C6_signature_header (n : Nat) (idat : List Nat)
    (h : 57 + idat.length ≤ PNGBUF_SIZE) (hn : n ≤ 177) :
    (pngEncode n idat).1.take 29 = pngSignature ++ u32be 13 ++ ihdrChunkData n
    ∧ pngSignature = [137, 80, 78, 71, 13, 10, 26, 10]
    ∧ ihdrChunkData n
        = [73, 72, 68, 82] ++ u32be (QR_SCALE * (n + 2 * QR_PADDING))
          ++ u32be (QR_SCALE * (n + 2 * QR_PADDING)) ++ [1, 0, 0, 0, 0]
    ∧ beDecode (((pngEncode n idat).1.drop 16).take 4) = QR_SCALE * (n + 2 * QR_PADDING)
    ∧ beDecode (((pngEncode n idat).1.drop 20).take 4) = QR_SCALE * (n + 2 * QR_PADDING) := by
  have hf1 : (pngEncode n idat).1 = pngChain n idat := by rw [pngEncode_closed n idat h]
  have hsize : QR_SCALE * (n + 2 * QR_PADDING) < 2 ^ 32 := by
    simp only [QR_SCALE, QR_PADDING]; omega
  refine ⟨?_, rfl, rfl, ?_, ?_⟩
  · rw [hf1, show pngChain n idat
        = (pngSignature ++ (u32be 13 ++ ihdrChunkData n))
          ++ (u32be (crc32 (ihdrChunkData n)) ++ (u32be idat.length
            ++ (([73, 68, 65, 84] ++ idat) ++ (u32be (crc32 ([73, 68, 65, 84] ++ idat))
              ++ (u32be 0 ++ ([73, 69, 78, 68] ++ u32be (crc32 [73, 69, 78, 68])))))))
        from by simp [pngChain], List.take_left' (by simp)]
    simp
  · rw [hf1, show pngChain n idat
        = (pngSignature ++ (u32be 13 ++ [73, 72, 68, 82]))
          ++ (u32be (QR_SCALE * (n + 2 * QR_PADDING))
            ++ (u32be (QR_SCALE * (n + 2 * QR_PADDING)) ++ ([1, 0, 0, 0, 0]
              ++ (u32be (crc32 (ihdrChunkData n)) ++ (u32be idat.length
                ++ (([73, 68, 65, 84] ++ idat) ++ (u32be (crc32 ([73, 68, 65, 84] ++ idat))
                  ++ (u32be 0 ++ ([73, 69, 78, 68] ++ u32be (crc32 [73, 69, 78, 68]))))))))))
        from by simp [pngChain, ihdrChunkData]]
    rw [seg_extract _ _ _ _ _ (by simp) (by simp)]
    exact beDecode_u32be _ hsize
  · rw [hf1, show pngChain n idat
        = (pngSignature ++ (u32be 13 ++ ([73, 72, 68, 82]
            ++ u32be (QR_SCALE * (n + 2 * QR_PADDING)))))
          ++ (u32be (QR_SCALE * (n + 2 * QR_PADDING)) ++ ([1, 0, 0, 0, 0]
              ++ (u32be (crc32 (ihdrChunkData n)) ++ (u32be idat.length
                ++ (([73, 68, 65, 84] ++ idat) ++ (u32be (crc32 ([73, 68, 65, 84] ++ idat))
                  ++ (u32be 0 ++ ([73, 69, 78, 68] ++ u32be (crc32 [73, 69, 78, 68])))))))))
        from by simp [pngChain, ihdrChunkData]]
    rw [seg_extract _ _ _ _ _ (by simp) (by simp)]
    exact beDecode_u32be _ hsize

/-- C6 witness at a concrete input. -/
theorem spec_C6_signature_header_witness :
    beDecode (((pngEncode 21 []).1.drop 16).take 4) = QR_SCALE * (21 + 2 * QR_PADDING) :=
  (spec_C6_signature_header 21 [] (by norm_num [PNGBUF_SIZE]) (by norm_num)).2.2.2.1

/-! ## C9 -/

theorem xorRow_congr (n : Nat) (r1 r2 : Nat → Bool) (s : LineState)
    (hr : ∀ x, x < n → r1 x = r2 x) : xorRow n r1 s = xorRow n r2 s := by
  induction n with
  | zero => rfl
  | succ m ih =>
    have h1 : xorRow (m + 1) r1 s = (xorStep (r1 m))^[QR_SCALE] (xorRow m r1 s) := by
      simp [xorRow, List.range_succ]
    have h2 : xorRow (m + 1) r2 s = (xorStep (r2 m))^[QR_SCALE] (xorRow m r2 s) := by
      simp [xorRow, List.range_succ]
    rw [h1, h2, hr m (by omega), ih (fun x hx => hr x (by omega))]

theorem synthLine_congr (n : Nat) (g1 g2 : Nat → Nat → Bool) (y : Nat)
    (hg : ∀ x y2, x < n → y2 < n → g1 x y2 = g2 x y2) (hy : y < n) :
    synthLine n g1 y = synthLine n g2 y := by
  unfold synthLine synthRow
  rw [xorRow_congr n _ _ _ (fun x hx => hg x y hx hy)]

theorem pngFeedTrace_congr (n : Nat) (g1 g2 : Nat → Nat → Bool)
    (hg : ∀ x y, x < n → y < n → g1 x y = g2 x y) :
    pngFeedTrace n g1 = pngFeedTrace n g2 := by
  unfold pngFeedTrace
  have hm : ((List.range n).flatMap fun y =>
        (List.range QR_SCALE).map fun _ =>
          ZEvent.feed ((synthLine n g1 y).take (1 + linelen n)) ZFlush.noFlush)
      = ((List.range n).flatMap fun y =>
        (List.range QR_SCALE).map fun _ =>
          ZEvent.feed ((synthLine n g2 y).take (1 + linelen n)) ZFlush.noFlush) := by
    simp only [List.flatMap]
    congr 1
    apply List.map_congr_left
    intro y hy
    rw [synthLine_congr n g1 g2 y hg (List.mem_range.mp hy)]
  rw [hm]

/-- C9: the emitted byte stream is a pure function of the module matrix
content (within its `n × n` extent), the scale and the padding: two
matrix oracles agreeing on every in-range module produce byte-identical
output, for any deterministic deflate backend `D`; hence running the
encode twice on the same matrix yields byte-identical output. -/
theorem spec_C9_deterministic (D : List ZEvent → List Nat) (n : Nat)
    (g1 g2 : Nat → Nat → Bool)
    (hg : ∀ x y, x < n → y < n → g1 x y = g2 x y) :
    fullEncode D n g1 = fullEncode D n g2 := by
  unfold fullEncode
  rw [pngFeedTrace_congr n g1 g2 hg]

/-- C9 witness at a concrete input. -/
theorem spec_C9_deterministic_witness :
    fullEncode (fun _ => []) 1 (fun _ _ => true)
      = fullEncode (fun _ => []) 1 (fun x _ => decide (x < 1)) :=
  spec_C9_deterministic (fun _ => []) 1 _ _ (fun x y hx _ => by simp [hx])

/-! ## C3 -/

theorem range_scale_flatMap {α : Type} (n : Nat) (f : Nat → α) :
    (List.range (QR_SCALE * n)).map (fun j => f (j / QR_SCALE))
      = (List.range n).flatMap fun y => (List.range QR_SCALE).map fun _ => f y := by
  induction n with
  | zero => simp
  | succ m ih =>
    rw [show QR_SCALE * (m + 1) = QR_SCALE * m + QR_SCALE from by ring,
        List.range_add, List.map_append, ih, List.range_succ, List.flatMap_append]
    congr 1
    simp only [List.map_map, List.flatMap_cons, List.flatMap_nil, List.append_nil]
    apply List.map_congr_left
    intro i hi
    have hi5 : i < QR_SCALE := List.mem_range.mp hi
    simp only [Function.comp]
    congr 1
    simp only [QR_SCALE] at hi5 ⊢
    omega

/-- C3: the sequence of compressor feeds is exactly, in index order:
`QR_SCALE * QR_PADDING` all-background top padding scanlines, then each
of the `n` module scanlines in row order, each replicated `QR_SCALE`
times, then `QR_SCALE * QR_PADDING` all-background bottom padding
scanlines, every one a single scanline fed with no flush; after the last
scanline the stream is finalized exactly once (a single trailing
zero-length `Z_FINISH` feed). -/
theorem spec_C3_feed_order (n : Nat) (get : Nat → Nat → Bool) :
    pngFeedTrace n get
      = ((List.range (QR_SCALE * QR_PADDING + QR_SCALE * n + QR_SCALE * QR_PADDING)).map
          fun i => ZEvent.feed (scanlineAt n get i) ZFlush.noFlush)
        ++ [ZEvent.feed [] ZFlush.finish] := by
  rw [List.range_add, List.range_add, List.map_append, List.map_append, List.map_map,
      List.map_map]
  unfold pngFeedTrace
  simp only [List.append_assoc]
  congr 1
  congr 1
  · rw [← range_scale_flatMap n
        (fun y => ZEvent.feed ((synthLine n get y).take (1 + linelen n)) ZFlush.noFlush)]
    apply List.map_congr_left
    intro j hj
    have h1 : j < QR_SCALE * n := List.mem_range.mp hj
    simp only [Function.comp]
    have h2 : ¬ (QR_SCALE * QR_PADDING + j < QR_SCALE * QR_PADDING) := by omega
    have h3 : QR_SCALE * QR_PADDING + j < QR_SCALE * QR_PADDING + QR_SCALE * n := by omega
    simp only [scanlineAt, if_neg h2, if_pos h3, Nat.add_sub_cancel_left]
  · congr 1
    apply List.map_congr_left
    intro i hi
    have h1 : i < QR_SCALE * QR_PADDING := List.mem_range.mp hi
    simp only [Function.comp]
    have h2 : ¬ (QR_SCALE * QR_PADDING + QR_SCALE * n + i < QR_SCALE * QR_PADDING) := by omega
    have h3 : ¬ (QR_SCALE * QR_PADDING + QR_SCALE * n + i
        < QR_SCALE * QR_PADDING + QR_SCALE * n) := by omega
    simp [scanlineAt, if_neg h2, if_neg h3]

/-! ## C7 -/

theorem deflateFeeds_ok (o : ZOracle) :
    ∀ (k i : Nat), (∀ j, j < k → Z_OK ≤ o.feedCode (i + j)) →
      deflateFeeds o i k = (none, k)
  | 0, _, _ => rfl
  | k + 1, i, h => by
    have h0 : ¬ (o.feedCode i < Z_OK) := by
      have := h 0 (by omega)
      simp only [Nat.add_zero] at this
      omega
    simp only [deflateFeeds, if_neg h0]
    rw [deflateFeeds_ok o k (i + 1) (fun j hj => by
      have := h (j + 1) (by omega)
      rwa [show i + (j + 1) = i + 1 + j from by omega] at this)]

theorem deflateFeeds_fail (o : ZOracle) :
    ∀ (j k i : Nat), j < k → (∀ j2, j2 < j → Z_OK ≤ o.feedCode (i + j2)) →
      o.feedCode (i + j) < Z_OK →
      deflateFeeds o i k = (some (EncErr.feedFail (o.feedCode (i + j))), j + 1)
  | 0, k + 1, i, _, _, hbad => by
    simp only [Nat.add_zero] at hbad
    simp only [deflateFeeds, if_pos hbad, Nat.add_zero]
  | j + 1, k + 1, i, hjk, hok, hbad => by
    have h0 : ¬ (o.feedCode i < Z_OK) := by
      have := hok 0 (by omega)
      simp only [Nat.add_zero] at this
      omega
    simp only [deflateFeeds, if_neg h0]
    rw [deflateFeeds_fail o j k (i + 1) (by omega) (fun j2 hj2 => by
        have := hok (j2 + 1) (by omega)
        rwa [show i + (j2 + 1) = i + 1 + j2 from by omega] at this)
      (by rwa [show i + 1 + j = i + (j + 1) from by omega])]
    dsimp only
    rw [show i + 1 + j = i + (j + 1) from by omega]

/-- C7: every compressor error is fatal and aborts the encode at once
with its own distinguishable error kind, and there are no retries.
Stated over the zlib return-code oracle: (1) a failed `deflateInit2`
aborts before any `deflate` call; (2) if the `j`-th scanline `deflate`
call is the first to fail, the encode stops with the feed error having
performed exactly `j + 1` scanline calls (the failing one last, none
retried, none after it); (3) if all feeds succeed but the `Z_FINISH`
call does not return `Z_STREAM_END`, the encode fails with the finish
error; (4) on an error-free run every scanline is fed exactly once plus
a single finish call.  In every error case `encodeResult` is the error:
nothing is written to the output. -/
theorem spec_C7_compressor_errors_fatal (o : ZOracle) (n : Nat) :
    (o.initCode < Z_OK →
      runCompression o n = (Except.error (EncErr.initFail o.initCode), 0)
      ∧ ∀ idat, encodeResult o n idat = Except.error (EncErr.initFail o.initCode))
    ∧ (Z_OK ≤ o.initCode →
        ∀ j, j < totalFeeds n → (∀ i, i < j → Z_OK ≤ o.feedCode i) →
          o.feedCode j < Z_OK →
          runCompression o n = (Except.error (EncErr.feedFail (o.feedCode j)), j + 1)
          ∧ ∀ idat, encodeResult o n idat = Except.error (EncErr.feedFail (o.feedCode j)))
    ∧ (Z_OK ≤ o.initCode → (∀ i, i < totalFeeds n → Z_OK ≤ o.feedCode i) →
        o.finishCode ≠ Z_STREAM_END →
        runCompression o n
          = (Except.error (EncErr.finishFail o.finishCode), totalFeeds n + 1)
        ∧ ∀ idat, encodeResult o n idat = Except.error (EncErr.finishFail o.finishCode))
    ∧ (Z_OK ≤ o.initCode → (∀ i, i < totalFeeds n → Z_OK ≤ o.feedCode i) →
        o.finishCode = Z_STREAM_END →
        runCompression o n = (Except.ok (), totalFeeds n + 1)) := by
  have hP : QR_SCALE * QR_PADDING = 20 := rfl
  refine ⟨?_, ?_, ?_, ?_⟩
  · intro hbad
    have hr : runCompression o n = (Except.error (EncErr.initFail o.initCode), 0) := by
      simp only [runCompression, if_pos hbad]
    exact ⟨hr, fun idat => by simp only [encodeResult, hr]⟩
  · intro hinit j hj hok hbad
    have h0 : ¬ (o.initCode < Z_OK) := by omega
    have hr : runCompression o n = (Except.error (EncErr.feedFail (o.feedCode j)), j + 1) := by
      simp only [runCompression, if_neg h0]
      by_cases hj1 : j < QR_SCALE * QR_PADDING
      · rw [deflateFeeds_fail o j (QR_SCALE * QR_PADDING) 0 hj1
            (fun j2 hj2 => by simpa using hok j2 (by omega))
            (by simpa using hbad)]
        simp
      · by_cases hj2 : j < QR_SCALE * QR_PADDING + n * QR_SCALE
        · rw [deflateFeeds_ok o (QR_SCALE * QR_PADDING) 0
              (fun j2 hj2 => by simpa using hok j2 (by simp only [totalFeeds] at hj ⊢; omega))]
          simp only
          rw [deflateFeeds_fail o (j - QR_SCALE * QR_PADDING) (n * QR_SCALE)
              (QR_SCALE * QR_PADDING) (by omega)
              (fun j2 hj2 => by
                have := hok (QR_SCALE * QR_PADDING + j2) (by omega)
                exact this)
              (by rwa [show QR_SCALE * QR_PADDING + (j - QR_SCALE * QR_PADDING) = j
                    from by omega])]
          simp only
          rw [show QR_SCALE * QR_PADDING + (j - QR_SCALE * QR_PADDING) = j from by omega]
          rw [Prod.mk.injEq]
          exact ⟨rfl, by omega⟩
        · rw [deflateFeeds_ok o (QR_SCALE * QR_PADDING) 0
              (fun j2 hj2 => by simpa using hok j2 (by simp only [totalFeeds] at hj ⊢; omega))]
          simp only
          rw [deflateFeeds_ok o (n * QR_SCALE) (QR_SCALE * QR_PADDING)
              (fun j2 hj2 => hok (QR_SCALE * QR_PADDING + j2) (by omega))]
          simp only
          rw [deflateFeeds_fail o (j - (QR_SCALE * QR_PADDING + n * QR_SCALE))
              (QR_SCALE * QR_PADDING) (QR_SCALE * QR_PADDING + n * QR_SCALE)
              (by simp only [totalFeeds] at hj; omega)
              (fun j2 hj2 => hok (QR_SCALE * QR_PADDING + n * QR_SCALE + j2) (by omega))
              (by rwa [show QR_SCALE * QR_PADDING + n * QR_SCALE
                    + (j - (QR_SCALE * QR_PADDING + n * QR_SCALE)) = j from by omega])]
          simp only
          rw [show QR_SCALE * QR_PADDING + n * QR_SCALE
                + (j - (QR_SCALE * QR_PADDING + n * QR_SCALE)) = j from by omega]
          rw [Prod.mk.injEq]
          exact ⟨rfl, by omega⟩
    exact ⟨hr, fun idat => by simp only [encodeResult, hr]⟩
  · intro hinit hok hbad
    have h0 : ¬ (o.initCode < Z_OK) := by omega
    have hr : runCompression o n
        = (Except.error (EncErr.finishFail o.finishCode), totalFeeds n + 1) := by
      simp only [runCompression, if_neg h0]
      rw [deflateFeeds_ok o (QR_SCALE * QR_PADDING) 0
          (fun j2 hj2 => by simpa using hok j2 (by simp only [totalFeeds]; omega))]
      simp only
      rw [deflateFeeds_ok o (n * QR_SCALE) (QR_SCALE * QR_PADDING)
          (fun j2 hj2 => hok (QR_SCALE * QR_PADDING + j2) (by simp only [totalFeeds]; omega))]
      simp only
      rw [deflateFeeds_ok o (QR_SCALE * QR_PADDING) (QR_SCALE * QR_PADDING + n * QR_SCALE)
          (fun j2 hj2 => hok (QR_SCALE * QR_PADDING + n * QR_SCALE + j2)
            (by simp only [totalFeeds]; omega))]
      simp only [if_pos hbad, totalFeeds]
    exact ⟨hr, fun idat => by simp only [encodeResult, hr]⟩
  · intro hinit hok hfin
    have h0 : ¬ (o.initCode < Z_OK) := by omega
    simp only [runCompression, if_neg h0]
    rw [deflateFeeds_ok o (QR_SCALE * QR_PADDING) 0
        (fun j2 hj2 => by simpa using hok j2 (by simp only [totalFeeds]; omega))]
    simp only
    rw [deflateFeeds_ok o (n * QR_SCALE) (QR_SCALE * QR_PADDING)
        (fun j2 hj2 => hok (QR_SCALE * QR_PADDING + j2) (by simp only [totalFeeds]; omega))]
    simp only
    rw [deflateFeeds_ok o (QR_SCALE * QR_PADDING) (QR_SCALE * QR_PADDING + n * QR_SCALE)
        (fun j2 hj2 => hok (QR_SCALE * QR_PADDING + n * QR_SCALE + j2)
          (by simp only [totalFeeds]; omega))]
    simp only [if_neg (by simp [hfin] : ¬ o.finishCode ≠ Z_STREAM_END), totalFeeds]

/-- C7 witness at a concrete input: a failed `deflateInit2` (return code
-4) aborts with the init error and zero deflate calls. -/
theorem spec_C7_compressor_errors_fatal_witness :
    runCompression ⟨-4, fun _ => 0, 1⟩ 0 = (Except.error (EncErr.initFail (-4)), 0) :=
  ((spec_C7_compressor_errors_fatal ⟨-4, fun _ => 0, 1⟩ 0).1 (by norm_num [Z_OK])).1

/-! ## C2 and C10: scanline bit-level machinery -/

theorem length_flipBit (line : List Nat) (p : Nat) :
    (flipBit line p).length = line.length := by
  simp [flipBit]

theorem length_flipRange :
    ∀ (k : Nat) (line : List Nat) (p : Nat), (flipRange line p k).length = line.length
  | 0, _, _ => rfl
  | k + 1, line, p => by
    rw [flipRange, length_flipRange k, length_flipBit]

theorem length_rowFlips (line : List Nat) (p : Nat) (row : Nat → Bool) :
    ∀ m, (rowFlips line p row m).length = line.length
  | 0 => rfl
  | m + 1 => by
    rw [rowFlips]
    by_cases h : row m
    · simp only [if_pos h, length_flipRange, length_rowFlips line p row m]
    · simp only [if_neg h, length_rowFlips line p row m]

theorem shift128 (r : Nat) (hr : r < 8) : 128 >>> r = 2 ^ (7 - r) := by
  interval_cases r <;> rfl

theorem xorStep_canon (q : Bool) (line : List Nat) (p : Nat) (ob : Bool) :
    xorStep q ⟨line, 1 + p / 8, 128 >>> (p % 8), ob⟩
      = ⟨if q then flipBit line p else line, 1 + (p + 1) / 8, 128 >>> ((p + 1) % 8),
         ob || (q && decide (line.length ≤ 1 + p / 8))⟩ := by
  unfold xorStep flipBit
  dsimp only
  by_cases h7 : p % 8 = 7
  · have hb1 : (128 : Nat) >>> (p % 8) = 1 := by rw [h7]; rfl
    rw [if_pos hb1, hb1]
    have e1 : (p + 1) % 8 = 0 := by omega
    have e2 : (p + 1) / 8 = p / 8 + 1 := by omega
    rw [e1, e2]
    rfl
  · have hb1 : ¬ ((128 : Nat) >>> (p % 8) = 1) := by
      obtain ⟨r, hrlt, hre⟩ : ∃ r, r < 8 ∧ p % 8 = r := ⟨p % 8, Nat.mod_lt _ (by omega), rfl⟩
      rw [hre]
      rw [hre] at h7
      interval_cases r <;> simp_all
    rw [if_neg hb1]
    have e1 : (p + 1) % 8 = p % 8 + 1 := by omega
    have e2 : (p + 1) / 8 = p / 8 := by omega
    have e3 : 128 >>> (p % 8) / 2 = 128 >>> ((p + 1) % 8) := by
      rw [e1]
      obtain ⟨r, hrlt, hre⟩ : ∃ r, r < 7 ∧ p % 8 = r := ⟨p % 8, by omega, rfl⟩
      rw [hre]
      interval_cases r <;> rfl
    rw [e2, e3]

theorem xorStep_iterate_canon (q : Bool) :
    ∀ (k : Nat) (line : List Nat) (p : Nat),
      (∀ j, j < k → 1 + (p + j) / 8 < line.length) →
      (xorStep q)^[k] ⟨line, 1 + p / 8, 128 >>> (p % 8), false⟩
        = ⟨if q then flipRange line p k else line, 1 + (p + k) / 8, 128 >>> ((p + k) % 8),
           false⟩
  | 0, line, p, _ => by
    cases q <;> simp [flipRange]
  | k + 1, line, p, hb => by
    rw [Function.iterate_succ_apply, xorStep_canon]
    have hd : decide (line.length ≤ 1 + p / 8) = false := by
      have := hb 0 (by omega)
      simp only [Nat.add_zero] at this
      simp
      omega
    rw [hd]
    simp only [Bool.and_false, Bool.or_false]
    cases q with
    | false =>
      simp only [Bool.false_eq_true, if_false]
      rw [xorStep_iterate_canon false k line (p + 1) (fun j hj => by
        have := hb (j + 1) (by omega)
        rwa [show p + (j + 1) = p + 1 + j from by omega] at this)]
      simp only [Bool.false_eq_true, if_false]
      rw [show p + 1 + k = p + (k + 1) from by omega]
    | true =>
      simp only [if_true]
      rw [xorStep_iterate_canon true k (flipBit line p) (p + 1) (fun j hj => by
        rw [length_flipBit]
        have := hb (j + 1) (by omega)
        rwa [show p + (j + 1) = p + 1 + j from by omega] at this)]
      simp only [if_true]
      rw [show p + 1 + k = p + (k + 1) from by omega]
      rfl

theorem xorRow_canon (row : Nat → Bool) :
    ∀ (m : Nat) (line : List Nat) (p : Nat),
      (∀ j, j < QR_SCALE * m → 1 + (p + j) / 8 < line.length) →
      xorRow m row ⟨line, 1 + p / 8, 128 >>> (p % 8), false⟩
        = ⟨rowFlips line p row m, 1 + (p + QR_SCALE * m) / 8,
           128 >>> ((p + QR_SCALE * m) % 8), false⟩
  | 0, line, p, _ => by
    simp [xorRow, rowFlips]
  | m + 1, line, p, hb => by
    have hmul : QR_SCALE * (m + 1) = QR_SCALE * m + QR_SCALE := by ring
    have hstep : xorRow (m + 1) row ⟨line, 1 + p / 8, 128 >>> (p % 8), false⟩
        = (xorStep (row m))^[QR_SCALE]
            (xorRow m row ⟨line, 1 + p / 8, 128 >>> (p % 8), false⟩) := by
      simp [xorRow, List.range_succ]
    rw [hstep, xorRow_canon row m line p (fun j hj => hb j (by omega))]
    rw [xorStep_iterate_canon (row m) QR_SCALE (rowFlips line p row m) (p + QR_SCALE * m)
        (fun j hj => by
          rw [length_rowFlips,
            show p + QR_SCALE * m + j = p + (QR_SCALE * m + j) from by omega]
          exact hb (QR_SCALE * m + j) (by omega))]
    have e1 : p + QR_SCALE * m + QR_SCALE = p + QR_SCALE * (m + 1) := by ring
    rw [e1]
    have e2 : (if row m then flipRange (rowFlips line p row m) (p + QR_SCALE * m) QR_SCALE
          else rowFlips line p row m) = rowFlips line p row (m + 1) := by
      rw [rowFlips]
    rw [e2]

theorem pixelBit_flipBit (line : List Nat) (q : Nat) (hq : 1 + q / 8 < line.length) (p : Nat) :
    pixelBit (flipBit line q) p = if p = q then ! pixelBit line p else pixelBit line p := by
  unfold pixelBit flipBit
  by_cases hbyte : 1 + p / 8 = 1 + q / 8
  · rw [hbyte]
    rw [List.getD_eq_getElem?_getD, List.getElem?_set_self hq]
    simp only [Option.getD_some]
    rw [Nat.testBit_xor]
    rw [shift128 (q % 8) (Nat.mod_lt _ (by omega)), Nat.testBit_two_pow]
    by_cases hpq : p = q
    · subst hpq
      simp [List.getD_eq_getElem?_getD]
    · have hm : ¬ (7 - q % 8 = 7 - p % 8) := by omega
      rw [if_neg hpq]
      simp [hm, List.getD_eq_getElem?_getD]
  · have hne : 1 + q / 8 ≠ 1 + p / 8 := fun h => hbyte h.symm
    rw [List.getD_eq_getElem?_getD, List.getElem?_set_ne hne, ← List.getD_eq_getElem?_getD]
    have hpq : ¬ (p = q) := by omega
    rw [if_neg hpq]

theorem pixelBit_flipRange :
    ∀ (k : Nat) (line : List Nat) (p0 : Nat),
      (∀ j, j < k → 1 + (p0 + j) / 8 < line.length) → ∀ p,
      pixelBit (flipRange line p0 k) p
        = if p0 ≤ p ∧ p < p0 + k then ! pixelBit line p else pixelBit line p
  | 0, line, p0, _, p => by
    rw [if_neg (by omega)]
    rfl
  | k + 1, line, p0, hb, p => by
    rw [flipRange]
    rw [pixelBit_flipRange k (flipBit line p0) (p0 + 1) (fun j hj => by
      rw [length_flipBit]
      have := hb (j + 1) (by omega)
      rwa [show p0 + (j + 1) = p0 + 1 + j from by omega] at this)]
    have h0 : 1 + p0 / 8 < line.length := by
      have := hb 0 (by omega)
      simpa using this
    rw [pixelBit_flipBit line p0 h0 p]
    by_cases hp : p = p0
    · subst hp
      rw [if_neg (by omega), if_pos (by omega : p ≤ p ∧ p < p + (k + 1))]
      simp
    · rw [if_neg hp]
      by_cases hin : p0 + 1 ≤ p ∧ p < p0 + 1 + k
      · rw [if_pos hin, if_pos (by omega)]
      · rw [if_neg hin, if_neg (by omega)]

theorem pixelBit_rowFlips (row : Nat → Bool) :
    ∀ (m : Nat) (line : List Nat) (p0 : Nat),
      (∀ j, j < QR_SCALE * m → 1 + (p0 + j) / 8 < line.length) → ∀ p,
      pixelBit (rowFlips line p0 row m) p
        = if ((List.range m).any fun x => row x && decide (p0 + QR_SCALE * x ≤ p)
              && decide (p < p0 + QR_SCALE * x + QR_SCALE))
          then ! pixelBit line p else pixelBit line p
  | 0, line, p0, _, p => by
    simp [rowFlips]
  | m + 1, line, p0, hb, p => by
    have hmul : QR_SCALE * (m + 1) = QR_SCALE * m + QR_SCALE := by ring
    have hbm : ∀ j, j < QR_SCALE * m → 1 + (p0 + j) / 8 < line.length :=
      fun j hj => hb j (by omega)
    have hcond : ((List.range (m + 1)).any fun x => row x && decide (p0 + QR_SCALE * x ≤ p)
          && decide (p < p0 + QR_SCALE * x + QR_SCALE))
        = (((List.range m).any fun x => row x && decide (p0 + QR_SCALE * x ≤ p)
            && decide (p < p0 + QR_SCALE * x + QR_SCALE))
          || (row m && decide (p0 + QR_SCALE * m ≤ p)
            && decide (p < p0 + QR_SCALE * m + QR_SCALE))) := by
      rw [List.range_succ, List.any_append]
      simp
    rw [rowFlips, hcond]
    by_cases hrm : row m
    · simp only [if_pos hrm]
      rw [pixelBit_flipRange QR_SCALE (rowFlips line p0 row m) (p0 + QR_SCALE * m)
          (fun j hj => by
            rw [length_rowFlips,
              show p0 + QR_SCALE * m + j = p0 + (QR_SCALE * m + j) from by omega]
            exact hb (QR_SCALE * m + j) (by omega)) p]
      rw [pixelBit_rowFlips row m line p0 hbm p]
      by_cases hin : p0 + QR_SCALE * m ≤ p ∧ p < p0 + QR_SCALE * m + QR_SCALE
      · rw [if_pos hin]
        have hprev : ((List.range m).any fun x => row x && decide (p0 + QR_SCALE * x ≤ p)
            && decide (p < p0 + QR_SCALE * x + QR_SCALE)) = false := by
          rw [List.any_eq_false]
          intro x hx
          have hxm : x < m := List.mem_range.mp hx
          have hstep : QR_SCALE * (x + 1) = QR_SCALE * x + QR_SCALE := by ring
          have hmono : QR_SCALE * x + QR_SCALE ≤ QR_SCALE * m := by
            have h2 : QR_SCALE * (x + 1) ≤ QR_SCALE * m := Nat.mul_le_mul_left _ (by omega)
            omega
          simp only [Bool.and_eq_true, decide_eq_true_eq, not_and]
          intro _ _
          omega
        have hc : (row m && decide (p0 + QR_SCALE * m ≤ p)
            && decide (p < p0 + QR_SCALE * m + QR_SCALE)) = true := by
          simp only [Bool.and_eq_true, decide_eq_true_eq]
          exact ⟨⟨hrm, hin.1⟩, hin.2⟩
        rw [hprev, hc]
        simp
      · rw [if_neg hin]
        have hlast : (row m && decide (p0 + QR_SCALE * m ≤ p)
            && decide (p < p0 + QR_SCALE * m + QR_SCALE)) = false := by
          by_cases h1 : p0 + QR_SCALE * m ≤ p
          · have h2 : ¬ p < p0 + QR_SCALE * m + QR_SCALE := fun hh => hin ⟨h1, hh⟩
            simp [h1, h2]
          · simp [h1]
        rw [hlast, Bool.or_false]
    · simp only [if_neg hrm]
      rw [pixelBit_rowFlips row m line p0 hbm p]
      have hlast : (row m && decide (p0 + QR_SCALE * m ≤ p)
          && decide (p < p0 + QR_SCALE * m + QR_SCALE)) = false := by
        simp [hrm]
      rw [hlast, Bool.or_false]

theorem pixelBit_initLine (n p : Nat) (hp : p < 8 * linelen n) :
    pixelBit (initLine n) p = true := by
  unfold pixelBit initLine
  have h8 : p / 8 < linelen n := by omega
  rw [show (1 : Nat) + p / 8 = p / 8 + 1 from by omega]
  rw [List.getD_cons_succ]
  rw [List.getD_eq_getElem?_getD, List.getElem?_append_left (by simpa using h8),
      List.getElem?_replicate]
  simp only [h8, if_pos, Option.getD_some]
  rw [show (255 : Nat) = 2 ^ 8 - 1 from rfl, Nat.testBit_two_pow_sub_one]
  simp
  omega

theorem getD0_flipBit (line : List Nat) (q : Nat) :
    (flipBit line q).getD 0 0 = line.getD 0 0 := by
  unfold flipBit
  rw [List.getD_eq_getElem?_getD, List.getElem?_set_ne (by omega),
    ← List.getD_eq_getElem?_getD]

theorem getD0_flipRange :
    ∀ (k : Nat) (line : List Nat) (p : Nat), (flipRange line p k).getD 0 0 = line.getD 0 0
  | 0, _, _ => rfl
  | k + 1, line, p => by
    rw [flipRange, getD0_flipRange k, getD0_flipBit]

theorem getD0_rowFlips (line : List Nat) (p : Nat) (row : Nat → Bool) :
    ∀ m, (rowFlips line p row m).getD 0 0 = line.getD 0 0
  | 0 => rfl
  | m + 1 => by
    rw [rowFlips]
    by_cases h : row m
    · simp only [if_pos h, getD0_flipRange, getD0_rowFlips line p row m]
    · simp only [if_neg h, getD0_rowFlips line p row m]

theorem linelen_le (n : Nat) (hn : n ≤ 255) : linelen n ≤ 165 := by
  simp only [linelen, QR_SCALE, QR_PADDING]
  omega

theorem initLine_length (n : Nat) (hn : n ≤ 255) : (initLine n).length = LINEBUF_LEN := by
  simp only [initLine, LINEBUF_LEN, List.length_cons, List.length_append,
    List.length_replicate, linelen, QR_SCALE, QR_PADDING]
  omega

/-! ## C2 -/

/-- C2: a synthesized scanline consists of the filter byte 0 followed by
packed pixel bits, most-significant bit first, one bit per pixel, bit
value 1 = background and 0 = foreground, pixel `p` living in byte
`p / 8` (after the filter byte) at bit `7 - p % 8`; starting from the
all-background line, pixel `p` is foreground exactly when some set
module `x` of the row covers it, i.e. when
`QR_SCALE * (x + QR_PADDING) ≤ p < QR_SCALE * (x + QR_PADDING) + QR_SCALE`
(each set module flips exactly its `QR_SCALE` consecutive bits, across
the fractional byte boundary at bit offset
`QR_SCALE * QR_PADDING mod 8 = 4`).  `n ≤ 255` is the line buffer's
design bound; QR matrices have `n ≤ 177`. -/
theorem spec_C2_scanline_bits (n : Nat) (hn : n ≤ 255) (get : Nat → Nat → Bool) (y p : Nat)
    (hp : p < 8 * linelen n) :
    (synthLine n get y).getD 0 0 = 0
    ∧ pixelBit (synthLine n get y) p
      = ! ((List.range n).any fun x => get x y && decide (QR_SCALE * (x + QR_PADDING) ≤ p)
            && decide (p < QR_SCALE * (x + QR_PADDING) + QR_SCALE)) := by
  have hlen := initLine_length n hn
  have hbound : ∀ j, j < QR_SCALE * n →
      1 + (QR_SCALE * QR_PADDING + j) / 8 < (initLine n).length := by
    intro j hj
    rw [hlen]
    simp only [QR_SCALE, QR_PADDING, LINEBUF_LEN] at hj ⊢
    omega
  have hrow : synthRow n (fun x => get x y)
      = ⟨rowFlips (initLine n) (QR_SCALE * QR_PADDING) (fun x => get x y) n,
         1 + (QR_SCALE * QR_PADDING + QR_SCALE * n) / 8,
         128 >>> ((QR_SCALE * QR_PADDING + QR_SCALE * n) % 8), false⟩ := by
    unfold synthRow xoff xmod
    exact xorRow_canon (fun x => get x y) n (initLine n) (QR_SCALE * QR_PADDING) hbound
  constructor
  · unfold synthLine
    rw [hrow]
    dsimp only
    rw [getD0_rowFlips]
    rfl
  · unfold synthLine
    rw [hrow]
    dsimp only
    rw [pixelBit_rowFlips (fun x => get x y) n (initLine n) (QR_SCALE * QR_PADDING) hbound p]
    rw [pixelBit_initLine n p hp]
    have hany : ((List.range n).any fun x => get x y
          && decide (QR_SCALE * QR_PADDING + QR_SCALE * x ≤ p)
          && decide (p < QR_SCALE * QR_PADDING + QR_SCALE * x + QR_SCALE))
        = ((List.range n).any fun x => get x y && decide (QR_SCALE * (x + QR_PADDING) ≤ p)
            && decide (p < QR_SCALE * (x + QR_PADDING) + QR_SCALE)) := by
      congr 1
      funext x
      rw [show QR_SCALE * QR_PADDING + QR_SCALE * x = QR_SCALE * (x + QR_PADDING) from by ring]
    rw [hany]
    cases hAB : ((List.range n).any fun x => get x y
        && decide (QR_SCALE * (x + QR_PADDING) ≤ p)
        && decide (p < QR_SCALE * (x + QR_PADDING) + QR_SCALE)) <;> simp [hAB]

/-- C2 witness at a concrete input: the 1-module all-set matrix; pixel 20
(the first pixel of the module block) is foreground, and the filter byte
is 0. -/
theorem spec_C2_scanline_bits_witness :
    (synthLine 1 (fun _ _ => true) 0).getD 0 0 = 0
    ∧ pixelBit (synthLine 1 (fun _ _ => true) 0) 20 = false := by
  have h := spec_C2_scanline_bits 1 (by norm_num) (fun _ _ => true) 0 20
    (by simp [linelen, QR_SCALE, QR_PADDING])
  exact ⟨h.1, by rw [h.2]; decide⟩

/-! ## C10 -/

/-- C10: for matrices of side at most 255 every line-buffer access is in
bounds: the buffer holds `LINEBUF_LEN = 166` bytes, the per-row
background fill (filter byte plus `linelen` bytes of 0xff) fits, the
packing loop never attempts a store outside the buffer (the
instrumentation flag `oob` stays false), the buffer length is preserved,
and the final byte pointer does not pass the end of the filled region. -/
theorem spec_C10_line_buffer_safety (n : Nat) (hn : n ≤ 255) (get : Nat → Nat → Bool)
    (y : Nat) :
    LINEBUF_LEN = 166
    ∧ 1 + linelen n ≤ LINEBUF_LEN
    ∧ (initLine n).length = LINEBUF_LEN
    ∧ (synthRow n (fun x => get x y)).oob = false
    ∧ (synthRow n (fun x => get x y)).line.length = LINEBUF_LEN
    ∧ (synthRow n (fun x => get x y)).ptr ≤ 1 + linelen n := by
  have hlen := initLine_length n hn
  have hbound : ∀ j, j < QR_SCALE * n →
      1 + (QR_SCALE * QR_PADDING + j) / 8 < (initLine n).length := by
    intro j hj
    rw [hlen]
    simp only [QR_SCALE, QR_PADDING, LINEBUF_LEN] at hj ⊢
    omega
  have hrow : synthRow n (fun x => get x y)
      = ⟨rowFlips (initLine n) (QR_SCALE * QR_PADDING) (fun x => get x y) n,
         1 + (QR_SCALE * QR_PADDING + QR_SCALE * n) / 8,
         128 >>> ((QR_SCALE * QR_PADDING + QR_SCALE * n) % 8), false⟩ := by
    unfold synthRow xoff xmod
    exact xorRow_canon (fun x => get x y) n (initLine n) (QR_SCALE * QR_PADDING) hbound
  refine ⟨rfl, ?_, hlen, ?_, ?_, ?_⟩
  · have := linelen_le n hn
    simp only [LINEBUF_LEN, QR_SCALE, QR_PADDING]
    omega
  · rw [hrow]
  · rw [hrow]
    dsimp only
    rw [length_rowFlips, hlen]
  · rw [hrow]
    dsimp only
    simp only [linelen, QR_SCALE, QR_PADDING]
    omega

/-- C10 witness at a concrete input. -/
theorem spec_C10_line_buffer_safety_witness :
    (synthRow 1 (fun _ => true)).oob = false := by
  have h := spec_C10_line_buffer_safety 1 (by norm_num) (fun _ _ => true) 0
  exact h.2.2.2.1

/-! ## C8: maximal-run machinery -/

theorem filterMap_congr_mem {α β : Type} {l : List α} {f g : α → Option β}
    (h : ∀ a ∈ l, f a = g a) : l.filterMap f = l.filterMap g := by
  induction l with
  | nil => rfl
  | cons a l ih =>
    rw [List.filterMap_cons, List.filterMap_cons, h a (by simp),
      ih (fun b hb => h b (by simp [hb]))]

theorem runLenAux_le (row : Nat → Bool) : ∀ (f s : Nat), runLenAux row s f ≤ f
  | 0, _ => Nat.le_refl 0
  | f + 1, s => by
    rw [runLenAux]
    by_cases h : row s
    · simp only [if_pos h]
      have := runLenAux_le row f (s + 1)
      omega
    · simp only [if_neg h]
      omega

theorem runLenAux_all (row : Nat → Bool) :
    ∀ (f s : Nat), (∀ j, j < f → row (s + j) = true) → runLenAux row s f = f
  | 0, _, _ => rfl
  | f + 1, s, h => by
    rw [runLenAux, if_pos (by simpa using h 0 (by omega))]
    rw [runLenAux_all row f (s + 1) (fun j hj => by
      have := h (j + 1) (by omega)
      rwa [show s + (j + 1) = s + 1 + j from by omega] at this)]

theorem runLenAux_stable (row : Nat → Bool) :
    ∀ (f s q : Nat), s ≤ q → q ≤ s + f → row q = false →
      runLenAux row s (f + 1) = runLenAux row s f
  | 0, s, q, h1, h2, hq => by
    have hqs : q = s := by omega
    rw [hqs] at hq
    simp [runLenAux, hq]
  | f + 1, s, q, h1, h2, hq => by
    by_cases hs : row s
    · rw [runLenAux, if_pos hs]
      conv_rhs => rw [runLenAux, if_pos hs]
      have hsq : s ≠ q := fun h => by rw [h] at hs; rw [hq] at hs; exact absurd hs (by simp)
      rw [runLenAux_stable row f (s + 1) q (by omega) (by omega) hq]
    · rw [runLenAux, if_neg hs]
      conv_rhs => rw [runLenAux, if_neg hs]

theorem trailing_spec (row : Nat → Bool) : ∀ m,
    trailing row m ≤ m
    ∧ (∀ j, m - trailing row m ≤ j → j < m → row j = true)
    ∧ (trailing row m < m → row (m - trailing row m - 1) = false)
  | 0 => ⟨Nat.le_refl 0, fun j h1 h2 => by omega, fun h => by omega⟩
  | m + 1 => by
    obtain ⟨ih1, ih2, ih3⟩ := trailing_spec row m
    by_cases h : row m
    · rw [trailing, if_pos h]
      refine ⟨by omega, ?_, ?_⟩
      · intro j hj1 hj2
        by_cases hjm : j = m
        · rwa [hjm]
        · exact ih2 j (by omega) (by omega)
      · intro hlt
        have e1 : m + 1 - (trailing row m + 1) - 1 = m - trailing row m - 1 := by omega
        rw [e1]
        exact ih3 (by omega)
    · rw [trailing, if_neg h]
      refine ⟨by omega, fun j h1 h2 => by omega, fun _ => by
        rw [show m + 1 - 0 - 1 = m from by omega]
        simpa using h⟩

theorem specRuns_prefix_stable (row : Nat → Bool) (m k : Nat)
    (hfalse : ∀ s, s < k → ∃ q, s ≤ q ∧ q ≤ m ∧ row q = false) :
    ((List.range k).filterMap fun s =>
        if isRunStart row s then some (s, runLenAux row s (m + 1 - s)) else none)
      = ((List.range k).filterMap fun s =>
          if isRunStart row s then some (s, runLenAux row s (m - s)) else none) := by
  apply filterMap_congr_mem
  intro s hs
  have hsk : s < k := List.mem_range.mp hs
  obtain ⟨q, hq1, hq2, hq3⟩ := hfalse s hsk
  have hsm : s ≤ m := by omega
  by_cases hrs : isRunStart row s
  · rw [if_pos hrs, if_pos hrs, show m + 1 - s = (m - s) + 1 from by omega,
      runLenAux_stable row (m - s) s q hq1 (by omega) hq3]
  · rw [if_neg hrs, if_neg hrs]

theorem specRuns_off (row : Nat → Bool) (m : Nat) (h : row m = false) :
    specRuns row (m + 1) = specRuns row m := by
  unfold specRuns
  rw [List.range_succ, List.filterMap_append]
  have htail : ([m].filterMap fun s =>
      if isRunStart row s then some (s, runLenAux row s (m + 1 - s)) else none) = [] := by
    simp [isRunStart, h]
  rw [htail, List.append_nil]
  exact specRuns_prefix_stable row m m (fun s hs => ⟨m, by omega, by omega, h⟩)

theorem specRuns_push_new (row : Nat → Bool) (m : Nat) (hon : row m = true)
    (ht : trailing row m = 0) :
    specRuns row (m + 1) = specRuns row m ++ [(m, 1)] := by
  obtain ⟨h1, h2, h3⟩ := trailing_spec row m
  unfold specRuns
  rw [List.range_succ, List.filterMap_append]
  congr 1
  · by_cases hm0 : m = 0
    · subst hm0
      rfl
    · have hprev : row (m - 1) = false := by
        have := h3 (by omega)
        rwa [ht, Nat.sub_zero] at this
      exact specRuns_prefix_stable row m m (fun s hs => ⟨m - 1, by omega, by omega, hprev⟩)
  · have hrs : isRunStart row m = true := by
      unfold isRunStart
      rw [hon]
      by_cases hm0 : m = 0
      · simp [hm0]
      · have hprev : row (m - 1) = false := by
          have := h3 (by omega)
          rwa [ht, Nat.sub_zero] at this
        simp [hprev]
    simp [hrs, runLenAux, hon]

theorem specRuns_decomp (row : Nat → Bool) (xs t : Nat) (hts : 0 < t)
    (hcov : ∀ j, xs ≤ j → j < xs + t → row j = true)
    (hstart : xs = 0 ∨ row (xs - 1) = false) :
    specRuns row (xs + t)
      = ((List.range xs).filterMap fun s =>
          if isRunStart row s then some (s, runLenAux row s (xs + t - s)) else none)
        ++ [(xs, t)] := by
  unfold specRuns
  rw [List.range_add, List.filterMap_append]
  congr 1
  obtain ⟨tt, rfl⟩ : ∃ tt, t = tt + 1 := ⟨t - 1, by omega⟩
  rw [List.range_succ_eq_map]
  simp only [List.map_cons, List.filterMap_cons, Nat.add_zero]
  have hrs : isRunStart row xs = true := by
    unfold isRunStart
    rw [hcov xs (Nat.le_refl _) (by omega)]
    rcases hstart with h0 | hprev
    · simp [h0]
    · simp [hprev]
  have hlen : runLenAux row xs (xs + (tt + 1) - xs) = tt + 1 := by
    rw [show xs + (tt + 1) - xs = tt + 1 from by omega]
    exact runLenAux_all row (tt + 1) xs (fun j hj => hcov (xs + j) (by omega) (by omega))
  rw [hrs]
  simp only [if_true, hlen]
  have htail : (((List.range tt).map Nat.succ).map (fun x => xs + x)).filterMap
      (fun s => if isRunStart row s then some (s, runLenAux row s (xs + (tt + 1) - s))
        else none) = [] := by
    rw [List.filterMap_eq_nil_iff]
    intro a ha
    obtain ⟨i, hi, rfl⟩ : ∃ i, i < tt ∧ xs + (i + 1) = a := by
      have h2 := by simpa using ha
      tauto
    have hprev : row (xs + i) = true := hcov (xs + i) (by omega) (by omega)
    have hrs2 : isRunStart row (xs + (i + 1)) = false := by
      unfold isRunStart
      rw [show xs + (i + 1) - 1 = xs + i from by omega, hprev]
      simp
    rw [hrs2]
    simp
  rw [htail]

theorem svgRow_invariant (row : Nat → Bool) (y : Nat) : ∀ m,
    ((List.range m).foldl (svgRowStep row y) (0, 0, [])).2.2
        ++ (if 0 < ((List.range m).foldl (svgRowStep row y) (0, 0, [])).2.1
            then [runRect y (((List.range m).foldl (svgRowStep row y) (0, 0, [])).1,
                  ((List.range m).foldl (svgRowStep row y) (0, 0, [])).2.1)]
            else [])
      = (specRuns row m).map (runRect y)
    ∧ ((List.range m).foldl (svgRowStep row y) (0, 0, [])).2.1 = trailing row m
    ∧ (0 < trailing row m →
        ((List.range m).foldl (svgRowStep row y) (0, 0, [])).1 = m - trailing row m)
  | 0 => ⟨by simp [specRuns], rfl, fun h => absurd h (by simp [trailing])⟩
  | m + 1 => by
    obtain ⟨ih1, ih2, ih3⟩ := svgRow_invariant row y m
    have hsucc : (List.range (m + 1)).foldl (svgRowStep row y) (0, 0, [])
        = svgRowStep row y ((List.range m).foldl (svgRowStep row y) (0, 0, [])) m := by
      rw [List.range_succ, List.foldl_append]
      rfl
    rcases hst : ((List.range m).foldl (svgRowStep row y) (0, 0, []))
      with ⟨xs, xc, acc⟩
    rw [hst] at ih1 ih2 ih3 hsucc
    dsimp only at ih1 ih2 ih3
    rw [hsucc]
    by_cases hrm : row m = true
    · by_cases hxc : xc = 0
      · subst hxc
        have hacc : acc = (specRuns row m).map (runRect y) := by simpa using ih1
        have htm1 : trailing row (m + 1) = trailing row m + 1 := by
          rw [trailing, if_pos hrm]
        refine ⟨?_, ?_, ?_⟩
        · rw [show svgRowStep row y (xs, 0, acc) m = (m, 1, acc) from by
            simp [svgRowStep, hrm]]
          dsimp only
          rw [specRuns_push_new row m hrm ih2.symm, List.map_append, hacc]
          simp [runRect]
        · rw [show svgRowStep row y (xs, 0, acc) m = (m, 1, acc) from by
            simp [svgRowStep, hrm]]
          rw [htm1, ← ih2]
        · intro hpos
          rw [show svgRowStep row y (xs, 0, acc) m = (m, 1, acc) from by
            simp [svgRowStep, hrm]]
          rw [htm1, ← ih2]
          dsimp only
          omega
      · have hxcpos : 0 < xc := by omega
        have hstep : svgRowStep row y (xs, xc, acc) m = (xs, xc + 1, acc) := by
          simp [svgRowStep, hrm, hxc]
        have htm : trailing row m = xc := ih2.symm
        have hxs : xs = m - xc := by
          rw [← htm]
          exact ih3 (by omega)
        obtain ⟨t1, t2, t3⟩ := trailing_spec row m
        have htm1 : trailing row (m + 1) = trailing row m + 1 := by
          rw [trailing, if_pos hrm]
        have hdec := specRuns_decomp row (m - trailing row m) (trailing row m)
          (by omega)
          (fun j hj1 hj2 => t2 j hj1 (by omega))
          (by
            rcases Nat.lt_or_ge (trailing row m) m with h | h
            · exact Or.inr (t3 h)
            · exact Or.inl (by omega))
        rw [show m - trailing row m + trailing row m = m from by omega] at hdec
        have hdec1 := specRuns_decomp row (m - trailing row m) (trailing row m + 1)
          (by omega)
          (fun j hj1 hj2 => by
            by_cases hjm : j = m
            · rwa [hjm]
            · exact t2 j hj1 (by omega))
          (by
            rcases Nat.lt_or_ge (trailing row m) m with h | h
            · exact Or.inr (t3 h)
            · exact Or.inl (by omega))
        rw [show m - trailing row m + (trailing row m + 1) = m + 1 from by omega] at hdec1
        have hstab := specRuns_prefix_stable row m (m - trailing row m)
          (fun s hs => ⟨m - trailing row m - 1, by omega, by omega, t3 (by omega)⟩)
        rw [hstab] at hdec1
        have hacc : acc = (((List.range (m - trailing row m)).filterMap fun s =>
            if isRunStart row s then some (s, runLenAux row s (m - s)) else none).map
              (runRect y)) := by
          have := ih1
          rw [if_pos hxcpos, hdec, List.map_append] at this
          have hxst : (xs, xc) = (m - trailing row m, trailing row m) := by
            rw [hxs, htm]
          rw [hxst] at this
          exact List.append_cancel_right this
        refine ⟨?_, ?_, ?_⟩
        · rw [hstep]
          dsimp only
          rw [if_pos (by omega), hdec1, List.map_append, hacc]
          congr 1
          simp only [List.map_cons, List.map_nil]
          rw [show (xs, xc + 1) = (m - trailing row m, trailing row m + 1) from by
            rw [hxs, htm]]
        · rw [hstep, htm1, htm]
        · intro hpos
          rw [hstep]
          dsimp only
          rw [htm1]
          omega
    · have hrowf : row m = false := by simpa using hrm
      have htm1 : trailing row (m + 1) = 0 := by
        rw [trailing, if_neg (by simp [hrowf])]
      by_cases hxc : xc = 0
      · subst hxc
        have hstep : svgRowStep row y (xs, 0, acc) m = (xs, 0, acc) := by
          simp [svgRowStep, hrowf]
        refine ⟨?_, ?_, fun h => by omega⟩
        · rw [hstep, specRuns_off row m hrowf]
          exact ih1
        · rw [hstep, htm1]
      · have hxcpos : 0 < xc := by omega
        have hstep : svgRowStep row y (xs, xc, acc) m
            = (xs, 0, acc ++ [runRect y (xs, xc)]) := by
          simp [svgRowStep, hrowf, hxcpos, runRect]
        refine ⟨?_, ?_, fun h => by omega⟩
        · rw [hstep, specRuns_off row m hrowf]
          dsimp only
          rw [if_neg (by omega), List.append_nil]
          rw [← ih1, if_pos hxcpos]
        · rw [hstep, htm1]

theorem svgRowRects_runs (row : Nat → Bool) (y n : Nat) :
    svgRowRects row y n = (specRuns row n).map (runRect y) := by
  obtain ⟨h1, _, _⟩ := svgRow_invariant row y n
  unfold svgRowRects
  exact h1

/-! ## C8 -/

/-- C8: the SVG document consists of a canvas of
`(n + 2 * QR_PADDING) * QR_SCALE` pixels on each side, a full-canvas
background rectangle first, then, for each row in order, exactly one
black rectangle per maximal horizontal run of set modules, positioned at
`((runStart + QR_PADDING) * QR_SCALE, (row + QR_PADDING) * QR_SCALE)`
with size `runLength * QR_SCALE` by `QR_SCALE`. -/
theorem spec_C8_svg_runs (n : Nat) (get : Nat → Nat → Bool) :
    svgDoc n get
      = (((n + 2 * QR_PADDING) * QR_SCALE, (n + 2 * QR_PADDING) * QR_SCALE),
         ⟨0, 0, (n + 2 * QR_PADDING) * QR_SCALE, (n + 2 * QR_PADDING) * QR_SCALE, false⟩ ::
           (List.range n).flatMap fun y =>
             (specRuns (fun x => get x y) n).map (runRect y)) := by
  unfold svgDoc
  congr 2
  simp only [List.flatMap]
  congr 1
  apply List.map_congr_left
  intro y _
  exact svgRowRects_runs (fun x => get x y) y n
